import Mathlib

/-! swiftgo: tool discovery and invocation forwarding.

A shallow embedding of `fbbdev/swiftgo`: package `internal/tools` (the tool abstraction,
the four locators with their parsers, the linker-flag derivation), package
`internal/version`, the driver `cmd/swiftgo` and the delegate `cmd/swiftgocc`.

* Go errors are values of `GoError`; a `nil` error is `none : Option GoError`.
* A function with several results returns a tuple; a pointer result that the source fills in
  before returning (the `tool` of every `Locate*` function) is returned as a value next to
  the error, because the source returns it on the failing paths too.
* Everything outside the program (search path, file system, child processes, JSON decoding,
  the `quoted` package) is a field of `World`; the mutable process state (environment
  variables, the record of effects performed so far) is `Sys` and is threaded explicitly.
* Go `int` is `Int`; the only place where its width matters is `strconv.Atoi`.
-/

namespace SwiftGo

/-! ## Errors -/

/-- Go error values that occur in the program.
`plain` is made by `errors.New` or by `fmt.Errorf` without a wrapped operand, `wrap` by
`fmt.Errorf` with a `%w` operand, `execExit` is `*exec.ExitError` (carrying what its
`ExitCode()` method returns) and `toolExit` is `*tools.ExitError` (tool.go, 18-25), carrying
its `ExitCode` field and the `Desc` of the tool it points to. -/
inductive GoError where
  | plain (msg : String)
  | wrap (msg : String) (inner : GoError)
  | execExit (code : Int)
  | toolExit (code : Int) (desc : String)
  deriving DecidableEq, Repr

/-- The `Error()` method. For `*tools.ExitError` this is tool.go line 24. -/
def GoError.Error : GoError → String
  | .plain msg => msg
  | .wrap msg _ => msg
  | .execExit code => "exit status " ++ toString code
  | .toolExit _ desc => desc ++ " returned non-zero exit code"

/-- The `Unwrap()` method as seen by `errors.Unwrap`: only errors made with `%w` have one. -/
def GoError.Unwrap : GoError → Option GoError
  | .wrap _ inner => some inner
  | _ => none

/-- The call `errors.As(err, &exitError)` with `exitError : *exec.ExitError`, on a non-nil
error: the first `*exec.ExitError` of the chain, as its exit code. -/
def GoError.asExecExit : GoError → Option Int
  | .execExit code => some code
  | .wrap _ inner => inner.asExecExit
  | _ => none

/-- The call `errors.As(err, &exitError)` with `exitError : *tools.ExitError`, on a non-nil
error: the `ExitCode` field of the first `*tools.ExitError` of the chain. -/
def GoError.asToolExit : GoError → Option Int
  | .toolExit code _ => some code
  | .wrap _ inner => inner.asToolExit
  | _ => none

/-- The call `fmt.Errorf(format, ..., operand)` where `format` ends in `%w` and `msg` is the
formatted text before the operand. A non-nil operand is wrapped. A nil operand is not an
error value, so `fmt` prints the bad-verb text and returns an error without `Unwrap`. -/
def fmtErrorfW (msg : String) (operand : Option GoError) : GoError :=
  match operand with
  | some e => .wrap (msg ++ e.Error) e
  | none => .plain (msg ++ "%!w(<nil>)")

/-! ## Tool and command construction (tool.go) -/

/-- The struct `Tool` (tool.go, 28-40). A nil slice and an empty slice are both `[]`. -/
structure Tool where
  Desc : String
  Hint : String
  Path : String
  Args : List String
  deriving DecidableEq, Repr

/-- The type `ForwardMode` (tool.go, 56) is a Go `int` used as a bit set. -/
abbrev ForwardMode := Int

def ForwardInput : ForwardMode := 1
def ForwardOutput : ForwardMode := 2
def ForwardErrors : ForwardMode := 4
def Forward : ForwardMode := Int.lor (Int.lor ForwardInput ForwardOutput) ForwardErrors
def CaptureInput : ForwardMode := Int.lor ForwardOutput ForwardErrors
def CaptureOutput : ForwardMode := Int.lor ForwardInput ForwardErrors
def CaptureErrors : ForwardMode := Int.lor ForwardInput ForwardOutput
def Capture : ForwardMode := 0

/-- What the `Stdin` field of an `exec.Cmd` is wired to. -/
inductive StdinSource where
  | unset
  | osStdin
  | reader (content : String)
  deriving DecidableEq, Repr

/-- The fields of `exec.Cmd` that the program decides. `Args` is the whole argument vector,
the name given to `exec.Command` first; `Stdout` and `Stderr` say whether the stream is
wired to the stream of the running process. The field `Path` is not among them: for a name
without path separators `exec.Command` stores there what a search-path lookup of the name
returns (and the error of the lookup in `Err`), which is decided by the world and not by
the program; it is part of what running the command does (`World.run`). -/
structure Cmd where
  Args : List String
  Stdin : StdinSource
  Stdout : Bool
  Stderr : Bool
  deriving DecidableEq, Repr

/-- The library call `exec.Command(name, arg...)`: the argument vector is the name followed
by the arguments and no stream is wired. The search-path resolution of a name without
separators, which the call stores in `Path`, is left to the run of the command. -/
def execCommand (name : String) (arg : List String) : Cmd :=
  { Args := name :: arg, Stdin := .unset, Stdout := false, Stderr := false }

/-- The method `Tool.Command` (tool.go, 78-98). -/
def Tool.Command (tool : Tool) (mode : ForwardMode) (args : List String) : Cmd :=
  let cmd :=
    if tool.Args.length > 0 then execCommand tool.Path (tool.Args ++ args)
    else execCommand tool.Path args
  let cmd := if Int.land mode ForwardInput ≠ 0 then { cmd with Stdin := .osStdin } else cmd
  let cmd := if Int.land mode ForwardOutput ≠ 0 then { cmd with Stdout := true } else cmd
  let cmd := if Int.land mode ForwardErrors ≠ 0 then { cmd with Stderr := true } else cmd
  cmd

/-- The method `Tool.processInvocationError` (tool.go, 132-139). The results `exitCode` and
`err` are named results: they hold `0` and `nil` until assigned, and the `%w` operand of
line 136 is the result `err`, not the parameter `invocationError`. -/
def Tool.processInvocationError (tool : Tool) (invocationError : Option GoError) :
    Int × Option GoError :=
  let exitCode : Int := 0
  let err : Option GoError := none
  match invocationError.bind GoError.asExecExit with
  | some code => (code, none)
  | none =>
    if invocationError ≠ none then
      (0, some (fmtErrorfW (tool.Desc ++ " invocation failed: ") err))
    else (exitCode, err)

/-! ## The world outside the program -/

/-- The process environment: the first binding of a key is the current one. -/
abbrev Env := List (String × String)

/-- What a finished (or failed) child process hands back: the bytes it wrote to its
standard output, its standard output and error combined, and the error that
`cmd.Run`, `cmd.Output` or `cmd.CombinedOutput` returns. -/
structure ProcResult where
  stdout : String
  combined : String
  err : Option GoError
  deriving DecidableEq, Repr

/-- The effects the program performs on the world, in the order it performs them. -/
inductive Event where
  | lookPath (file : String)
  | start (cmd : Cmd) (env : Env)
  | stat (path : String)
  | openFile (path : String)
  | setenv (key value : String)
  | mkdirTemp (pattern : String)
  | removeAll (path : String)
  | print (text : String)
  deriving DecidableEq, Repr

/-- The mutable state of the running process: its environment and the effects so far. -/
structure Sys where
  env : Env
  log : List Event
  deriving DecidableEq, Repr

/-- Append one effect to the record. -/
def Sys.record (s : Sys) (e : Event) : Sys :=
  { s with log := s.log ++ [e] }

/-- The struct `targetInfo` (swiftc.go, 163-178) with its nested structs flattened:
`CompatibilityLibraries` lists the `LibraryName` of each entry of
`Target.CompatibilityLibraries`, in order. -/
structure targetInfo where
  CompilerVersion : String
  CompatibilityLibraries : List String
  LibrariesRequireRPath : Bool
  SDKPath : String
  RuntimeLibraryPaths : List String
  deriving DecidableEq, Repr

/-- The fields of `debug.BuildInfo` that the program reads: the version of the main module
and the build settings as (key, value) pairs, in order. -/
structure BuildInfo where
  MainVersion : String
  Settings : List (String × String)
  deriving DecidableEq, Repr

/-- The parts of the world and of the libraries that the program consults. Each field is
the result the named call has in the run under study. -/
structure World where
  /-- The call `quoted.Split(s)` of package `internal/quoted`, whose source is not
  available: the list of tokens and the error, whatever they are. -/
  quotedSplit : String → List String × Option GoError
  /-- The call `exec.LookPath(file)`: path and error. -/
  lookPath : String → String × Option GoError
  /-- Starting `cmd` under environment `env` and waiting for it. -/
  run : Env → Cmd → ProcResult
  /-- Whether `os.Stat(path)` returns a nil error. -/
  stat : String → Bool
  /-- The lines `bufio.Scanner` yields for the file at a path, `none` if `os.Open` fails. -/
  readLines : String → Option (List String)
  /-- The call `os.UserConfigDir()`. -/
  userConfigDir : String × Option GoError
  /-- The call `os.Executable()`. -/
  executable : String × Option GoError
  /-- The call `filepath.Join(elem...)`. -/
  pathJoin : List String → String
  /-- The call `filepath.Dir(path)`. -/
  pathDir : String → String
  /-- The call `filepath.IsAbs(path)`. -/
  isAbs : String → Bool
  /-- The call `strings.TrimSpace(s)`. -/
  trimSpace : String → String
  /-- The call `json.Unmarshal(data, &m)` for `m : map[string]string`: the bindings stored
  into the map and the error. -/
  jsonEnv : String → List (String × String) × Option GoError
  /-- The call `json.Unmarshal(data, &info)` for `info : targetInfo`: `none` for an error. -/
  jsonTargetInfo : String → Option targetInfo
  /-- The call `debug.ReadBuildInfo()`: the build information embedded in the running
  binary, `none` when it is not available. -/
  readBuildInfo : Option BuildInfo
  /-- The call `buildinfo.ReadFile(path)`: `none` for an error. -/
  readBuildInfoFile : String → Option BuildInfo
  /-- The call `os.MkdirTemp(dir, pattern)`: the path of the new directory and the error. -/
  mkdirTemp : String → String → String × Option GoError
  /-- The error of the call `os.Setenv(key, value)`. -/
  setenvError : String → String → Option GoError

/-- The call `os.Getenv(key)`: the empty string when the variable is unset. -/
def osGetenv (s : Sys) (key : String) : String :=
  (s.env.lookup key).getD ""

/-- The call `os.LookupEnv(key)`. -/
def osLookupEnv (s : Sys) (key : String) : Option String :=
  s.env.lookup key

/-- The call `os.Setenv(key, value)`, recorded: on success the variable is bound to the
value and every other variable is left as it is. -/
def osSetenv (w : World) (key value : String) (s : Sys) : Option GoError × Sys :=
  match w.setenvError key value with
  | some e => (some e, s.record (.setenv key value))
  | none =>
    (none, { env := (key, value) :: s.env.filter (fun b => b.1 ≠ key),
             log := s.log ++ [.setenv key value] })

/-- The call `os.MkdirTemp(dir, pattern)`, recorded. -/
def osMkdirTemp (w : World) (dir pattern : String) (s : Sys) : (String × Option GoError) × Sys :=
  (w.mkdirTemp dir pattern, s.record (.mkdirTemp pattern))

/-- The call `exec.LookPath(file)`, recorded. -/
def execLookPath (w : World) (file : String) (s : Sys) : (String × Option GoError) × Sys :=
  (w.lookPath file, s.record (.lookPath file))

/-- The call `os.Stat(path)`, recorded: `true` when the error is nil. -/
def osStat (w : World) (path : String) (s : Sys) : Bool × Sys :=
  (w.stat path, s.record (.stat path))

/-- The method `cmd.Run()`: start the command, wait, return the error. -/
def Cmd.Run (w : World) (cmd : Cmd) (s : Sys) : Option GoError × Sys :=
  ((w.run s.env cmd).err, s.record (.start cmd s.env))

/-- The method `cmd.Output()`: run and return the captured standard output. -/
def Cmd.Output (w : World) (cmd : Cmd) (s : Sys) : (String × Option GoError) × Sys :=
  (((w.run s.env cmd).stdout, (w.run s.env cmd).err), s.record (.start cmd s.env))

/-- The method `cmd.CombinedOutput()`: run and return standard output and error combined. -/
def Cmd.CombinedOutput (w : World) (cmd : Cmd) (s : Sys) : (String × Option GoError) × Sys :=
  (((w.run s.env cmd).combined, (w.run s.env cmd).err), s.record (.start cmd s.env))

/-! ## Locating and running a tool (tool.go) -/

/-- The method `Tool.Locate` (tool.go, 43-52). The path returned by `exec.LookPath` is
stored also when the lookup fails. -/
def Tool.Locate (w : World) (tool : Tool) (s : Sys) : (Tool × Option GoError) × Sys :=
  if tool.Path = "" then
    let r := execLookPath w tool.Hint s
    let tool1 := { tool with Path := r.1.1 }
    match r.1.2 with
    | some e => ((tool1, some (fmtErrorfW (tool.Desc ++ " not found: ") (some e))), r.2)
    | none => ((tool1, none), r.2)
  else ((tool, none), s)

/-- The method `Tool.Run` (tool.go, 104-108): exit code and error. -/
def Tool.Run (w : World) (tool : Tool) (args : List String) (s : Sys) :
    (Int × Option GoError) × Sys :=
  let r := (tool.Command Forward args).Run w s
  (tool.processInvocationError r.1, r.2)

/-- The method `Tool.Output` (tool.go, 114-118): output, exit code and error. -/
def Tool.Output (w : World) (tool : Tool) (args : List String) (s : Sys) :
    (String × Int × Option GoError) × Sys :=
  let r := (tool.Command CaptureOutput args).Output w s
  ((r.1.1, tool.processInvocationError r.1.2), r.2)

/-- The method `Tool.CombinedOutput` (tool.go, 124-128): output, exit code and error. -/
def Tool.CombinedOutput (w : World) (tool : Tool) (args : List String) (s : Sys) :
    (String × Int × Option GoError) × Sys :=
  let r := (tool.Command ForwardInput args).CombinedOutput w s
  ((r.1.1, tool.processInvocationError r.1.2), r.2)

/-! ## Small library functions used by the locators -/

/-- The class `\d` of Go regular expressions: the ASCII digits. -/
def isDigitChar (c : Char) : Bool :=
  decide ('0' ≤ c ∧ c ≤ '9')

/-- The word characters of `\b` in Go regular expressions: ASCII letters, digits and `_`. -/
def isWordChar (c : Char) : Bool :=
  decide ('0' ≤ c ∧ c ≤ '9') || decide ('a' ≤ c ∧ c ≤ 'z') || decide ('A' ≤ c ∧ c ≤ 'Z')
    || c == '_'

/-- The assertion `\b` between the character before a position (if any) and the character
after it (if any): exactly one of the two is a word character. -/
def wordBoundary (before after : Option Char) : Bool :=
  (before.map isWordChar).getD false != (after.map isWordChar).getD false

/-- The value of a run of decimal digits. -/
def digitsValue (ds : List Char) : Nat :=
  ds.foldl (fun n c => 10 * n + (c.toNat - '0'.toNat)) 0

/-- The largest Go `int` on the 64-bit targets the program is built for. -/
def maxInt : Nat := 2 ^ 63 - 1

/-- The call `strconv.Atoi(s)` on a text without sign, which is all the program passes:
value and error. A text that is empty or has a character other than a digit is a syntax
error with value 0; a value above the largest `int` is a range error with that largest
value. -/
def strconvAtoi (s : List Char) : Int × Option GoError :=
  if s = [] ∨ ¬ s.all isDigitChar = true then
    (0, some (.plain ("strconv.Atoi: parsing " ++ String.mk s ++ ": invalid syntax")))
  else if digitsValue s ≤ maxInt then ((digitsValue s : Nat), none)
  else ((maxInt : Nat), some (.plain ("strconv.Atoi: parsing " ++ String.mk s ++ ": value out of range")))

/-! ## The Go build tool (go.go) -/

/-- The constant `GoOverrideKey` (go.go, 20). -/
def GoOverrideKey : String := "SWIFTGO_GOTOOL"

/-- The anonymous struct type of the `Version` fields of `GoTool` and `SwiftCompiler`; the
field `Text` is the source's `String`. -/
structure Version where
  Text : String
  Major : Int
  Minor : Int
  Patch : Int
  deriving DecidableEq, Repr

/-- The struct `GoTool` (go.go, 23-36); `Env` is the map as a list of bindings. -/
structure GoTool where
  toTool : Tool
  Version : Version
  Env : List (String × String)
  deriving DecidableEq, Repr

/-- The tail `(\d+)\.(\d+)(?:\.(\d+))?\b` shared by both version patterns, matched
at the text `rest` that follows the literal head of a pattern: the three submatches. The
engine prefers the longest digit runs and the optional group; a shorter digit run can
never be completed, because the next pattern item (a dot, or `\b` after a digit) does not
match before a digit. When the group cannot be followed by `\b` the engine backtracks to
the match without the group. -/
def matchVersionTail (rest : List Char) : Option (List Char × List Char × List Char) :=
  let major := rest.takeWhile isDigitChar
  if major = [] then none else
  match rest.dropWhile isDigitChar with
  | '.' :: r3 =>
    let minor := r3.takeWhile isDigitChar
    if minor = [] then none else
    match r3.dropWhile isDigitChar with
    | '.' :: r5 =>
      let patch := r5.takeWhile isDigitChar
      if patch ≠ [] ∧ wordBoundary patch.getLast? (r5.dropWhile isDigitChar).head? = true then
        some (major, minor, patch)
      else if wordBoundary minor.getLast? (some '.') = true then some (major, minor, [])
      else none
    | r4 =>
      if wordBoundary minor.getLast? r4.head? = true then some (major, minor, []) else none
  | _ => none

/-- A match of `goVersionRegex` (go.go, 38), the pattern
`\bgo(\d+)\.(\d+)(?:\.(\d+))?\b`, that starts exactly at the text `rest`, the
character before it being `before`: the three submatches. -/
def matchGoVersionAt (before : Option Char) (rest : List Char) :
    Option (List Char × List Char × List Char) :=
  if wordBoundary before rest.head? = true then
    match rest with
    | 'g' :: 'o' :: r1 => matchVersionTail r1
    | _ => none
  else none

/-- The leftmost match of `goVersionRegex` in the text, scanning from a position whose
preceding character is `before`. -/
def findGoVersionFrom (before : Option Char) : List Char → Option (List Char × List Char × List Char)
  | [] => matchGoVersionAt before []
  | c :: cs =>
    match matchGoVersionAt before (c :: cs) with
    | some m => some m
    | none => findGoVersionFrom (some c) cs

/-- The call `goVersionRegex.FindSubmatch(version)`: submatches 1 to 3 of the leftmost
match, `none` for a nil result. An absent third group is the empty text. -/
def goVersionRegexFindSubmatch (version : String) : Option (List Char × List Char × List Char) :=
  findGoVersionFrom none version.toList

/-- The value `errUnsupportedVersion` of `LocateGoTool` (go.go, 112). -/
def goErrUnsupportedVersion (desc : String) : GoError :=
  .plain ("Go version could not be retrieved: " ++ desc ++ " returned unsupported version string")

/-- The version-parsing step of `LocateGoTool` (go.go, 109-126) on the output `version` of
the `version` subcommand: the `Version` field afterwards and the error, which is nil or
`errUnsupportedVersion`. The fields keep what `strconv.Atoi` returned also on a failure. -/
def parseGoVersion (desc : String) (version : String) : Version × Option GoError :=
  let v : Version := { Text := version, Major := 0, Minor := 0, Patch := 0 }
  match goVersionRegexFindSubmatch version with
  | none => (v, some (goErrUnsupportedVersion desc))
  | some (m1, m2, m3) =>
    let a1 := strconvAtoi m1
    let v := { v with Major := a1.1 }
    if a1.2 ≠ none then (v, some (goErrUnsupportedVersion desc)) else
    let a2 := strconvAtoi m2
    let v := { v with Minor := a2.1 }
    if a2.2 ≠ none then (v, some (goErrUnsupportedVersion desc)) else
    if m3.length > 0 then
      let a3 := strconvAtoi m3
      let v := { v with Patch := a3.1 }
      if a3.2 ≠ none then (v, some (goErrUnsupportedVersion desc)) else (v, none)
    else (v, none)

/-- The function `envFile` (utils.go, 48-66). -/
def envFile (w : World) (s : Sys) : String × Option GoError :=
  let file := osGetenv s "GOENV"
  if file ≠ "" then
    if file = "off" then ("", some (.plain "GOENV=off")) else (file, none)
  else
    let r := w.userConfigDir
    if r.2 ≠ none then ("", r.2)
    else if r.1 = "" then ("", some (.plain "missing user-config dir"))
    else (w.pathJoin [r.1, "go", "env"], none)

/-- The function `queryEnvFile` (utils.go, 14-41). -/
def queryEnvFile (w : World) (key : String) (s : Sys) : String × Sys :=
  match key.toList with
  | [] => ("", s)
  | k0 :: _ =>
    if k0 < 'A' ∨ 'Z' < k0 then ("", s) else
    let pfx := key ++ "="
    let r := envFile w s
    if r.1 = "" ∨ r.2 ≠ none then ("", s) else
    match w.readLines r.1 with
    | none => ("", s.record (.openFile r.1))
    | some lines =>
      match lines.find? (fun line => pfx.isPrefixOf line) with
      | some line => (line.drop pfx.length, s.record (.openFile r.1))
      | none => ("", s.record (.openFile r.1))

/-- The function `queryXCrun` (utils.go, 69-81). -/
def queryXCrun (w : World) (tool : String) (s : Sys) : String × Sys :=
  let r := (execCommand "xcrun" ["-f", tool]).Output w s
  if r.1.2 ≠ none then ("", r.2) else
  let l := execLookPath w (w.trimSpace r.1.1) r.2
  if l.1.2 ≠ none then ("", l.2) else (l.1.1, l.2)

/-- The second half of `LocateGoTool` (go.go, 85-134), from the default description on. -/
def LocateGoTool.query (w : World) (tool : GoTool) (s : Sys) : (GoTool × Option GoError) × Sys :=
  let tool : GoTool :=
    if tool.toTool.Desc = "" then
      { tool with toTool := { tool.toTool with Desc := "Go tool \"" ++ tool.toTool.Hint ++ "\"" } }
    else tool
  let l := tool.toTool.Locate w s
  let tool := { tool with toTool := l.1.1 }
  if l.1.2 ≠ none then ((tool, l.1.2), l.2) else
  let r1 := tool.toTool.Output w ["version"] l.2
  let version := r1.1.1
  let r2 : (String × String × Int × Option GoError) × Sys :=
    if r1.1.2.2 = none ∧ r1.1.2.1 = 0 then
      let r := tool.toTool.Output w ["env", "-json"] r1.2
      (("Go environment configuration", r.1), r.2)
    else (("Go version", "", r1.1.2), r1.2)
  let scope := r2.1.1
  let env := r2.1.2.1
  let exitCode := r2.1.2.2.1
  let err := r2.1.2.2.2
  if err ≠ none then ((tool, err), r2.2)
  else if exitCode ≠ 0 then
    ((tool, some (fmtErrorfW (scope ++ " could not be retrieved: ")
      (some (.toolExit exitCode tool.toTool.Desc)))), r2.2)
  else
    let pv := parseGoVersion tool.toTool.Desc version
    let tool := { tool with Version := pv.1 }
    if pv.2 ≠ none then ((tool, pv.2), r2.2) else
    let j := w.jsonEnv env
    let tool := { tool with Env := j.1 }
    match j.2 with
    | some e =>
      ((tool, some (fmtErrorfW "Go environment configuration could not be retrieved: " (some e))), r2.2)
    | none => ((tool, none), r2.2)

/-- The first half of `LocateGoTool` (go.go, 55-83): the initial tool, then the explicit
override or else the installation root, which set the lookup hint and the fixed arguments. -/
def LocateGoTool.cascade (w : World) (s : Sys) : (GoTool × Option GoError) × Sys :=
  let tool : GoTool :=
    { toTool := { Desc := "", Hint := "go", Path := "", Args := [] },
      Version := { Text := "", Major := 0, Minor := 0, Patch := 0 },
      Env := [] }
  let override := osGetenv s GoOverrideKey
  if override ≠ "" then
    let sp := w.quotedSplit override
    match sp.2, sp.1 with
    | none, t :: ts =>
      (({ tool with toTool :=
            { tool.toTool with Desc := "Go tool \"" ++ override ++ "\"", Hint := t, Args := ts } },
        none), s)
    | err, args =>
      (({ tool with toTool := { tool.toTool with Args := args } },
        some (fmtErrorfW (GoOverrideKey ++ " environment variable could not be parsed: ") err)), s)
  else
    let root := osGetenv s "GOROOT"
    let q : String × Sys := if root = "" then queryEnvFile w "GOROOT" s else (root, s)
    if q.1 ≠ "" then
      (({ tool with toTool := { tool.toTool with Hint := w.pathJoin [q.1, "bin", "go"] } }, none), q.2)
    else ((tool, none), q.2)

/-- The function `LocateGoTool` (go.go, 54-135): the tool and the error. -/
def LocateGoTool (w : World) (s : Sys) : (GoTool × Option GoError) × Sys :=
  let c := LocateGoTool.cascade w s
  if c.1.2 ≠ none then c else LocateGoTool.query w c.1.1 c.2

/-! ## The C compiler (clang.go) -/

/-- The constant `CCOverrideKey` (clang.go, 18). -/
def CCOverrideKey : String := "__SWIFTGO_PRIVATE_CC"

/-- The struct `CCompiler` (clang.go, 21-26). -/
structure CCompiler where
  toTool : Tool
  IsClang : Bool
  deriving DecidableEq, Repr

/-- The constant `ccClangTest` (clang.go, 28-31). -/
def ccClangTest : String := "#ifdef __clang__\n#else\n#error \"Unsupported\"\n#endif"

/-- The first part of `LocateCCompiler` (clang.go, 47-70): the initial tool, then the
explicit override or else the `xcrun` probe. -/
def LocateCCompiler.cascade (w : World) (s : Sys) : (CCompiler × Option GoError) × Sys :=
  let tool : CCompiler :=
    { toTool := { Desc := "", Hint := "clang", Path := "", Args := [] }, IsClang := false }
  let override := osGetenv s CCOverrideKey
  if override ≠ "" then
    let sp := w.quotedSplit override
    match sp.2, sp.1 with
    | none, t :: ts =>
      (({ tool with toTool :=
            { tool.toTool with Desc := "C compiler \"" ++ override ++ "\"", Hint := t, Args := ts } },
        none), s)
    | err, args =>
      (({ tool with toTool := { tool.toTool with Args := args } },
        some (fmtErrorfW (CCOverrideKey ++ " environment variable could not be parsed: ") err)), s)
  else
    let x := queryXCrun w "clang" s
    if x.1 ≠ "" then
      (({ tool with toTool := { tool.toTool with Hint := "xcrun clang", Path := x.1 } }, none), x.2)
    else ((tool, none), x.2)

/-- The second part of `LocateCCompiler` (clang.go, 72-78): the default description and
the lookup of the binary. -/
def LocateCCompiler.locate (w : World) (tool : CCompiler) (s : Sys) :
    (CCompiler × Option GoError) × Sys :=
  let tool : CCompiler :=
    if tool.toTool.Desc = "" then
      { tool with toTool := { tool.toTool with Desc := "C compiler \"" ++ tool.toTool.Hint ++ "\"" } }
    else tool
  let l := tool.toTool.Locate w s
  (({ tool with toTool := l.1.1 }, l.1.2), l.2)

/-- The command of the preprocessing-only probe (clang.go, 80-81). -/
def LocateCCompiler.probeCommand (tool : CCompiler) : Cmd :=
  { tool.toTool.Command Capture ["-E", "-x", "c", "-", "-o", "-"] with Stdin := .reader ccClangTest }

/-- The last part of `LocateCCompiler` (clang.go, 80-90): the preprocessing-only probe on
the located binary. The assignment of line 82 stores into the result `err`, which line 84
returns when it is not nil. -/
def LocateCCompiler.probe (w : World) (tool : CCompiler) (s : Sys) :
    (CCompiler × Option GoError) × Sys :=
  let r := (LocateCCompiler.probeCommand tool).Run w s
  let p := tool.toTool.processInvocationError r.1
  if p.2 ≠ none then ((tool, p.2), r.2)
  else if p.1 = 0 then (({ tool with IsClang := true }, none), r.2)
  else ((tool, none), r.2)

/-- The function `LocateCCompiler` (clang.go, 46-90): the tool and the error. -/
def LocateCCompiler (w : World) (s : Sys) : (CCompiler × Option GoError) × Sys :=
  let c := LocateCCompiler.cascade w s
  if c.1.2 ≠ none then c else
  let l := LocateCCompiler.locate w c.1.1 c.2
  if l.1.2 ≠ none then l else LocateCCompiler.probe w l.1.1 l.2

/-- The method `CCompiler.NakedCommand` (clang.go, 96-104): `Command` with the fixed
arguments suppressed for the one call. -/
def CCompiler.NakedCommand (tool : CCompiler) (mode : ForwardMode) (args : List String) : Cmd :=
  ({ tool.toTool with Args := [] } : Tool).Command mode args

/-! ## The Swift compiler (swiftc.go) -/

/-- The constant `SwiftcOverrideKey` (swiftc.go, 21). -/
def SwiftcOverrideKey : String := "SWIFTGO_SWIFTC"

/-- The constant `SwiftcFlagsKey` (swiftc.go, 25). -/
def SwiftcFlagsKey : String := "SWIFTGO_SWIFTFLAGS"

/-- The struct `SwiftCompiler` (swiftc.go, 28-42). -/
structure SwiftCompiler where
  toTool : Tool
  Version : Version
  LinkerFlags : List String
  deriving DecidableEq, Repr

/-- A match of `swiftcVersionRegex` (swiftc.go, 44), the pattern
`\bversion (\d+)\.(\d+)(?:\.(\d+))?\b`, that starts exactly at the text `rest`. -/
def matchSwiftVersionAt (before : Option Char) (rest : List Char) :
    Option (List Char × List Char × List Char) :=
  if wordBoundary before rest.head? = true then
    match rest with
    | 'v' :: 'e' :: 'r' :: 's' :: 'i' :: 'o' :: 'n' :: ' ' :: r1 => matchVersionTail r1
    | _ => none
  else none

/-- The leftmost match of `swiftcVersionRegex` in the text. -/
def findSwiftVersionFrom (before : Option Char) :
    List Char → Option (List Char × List Char × List Char)
  | [] => matchSwiftVersionAt before []
  | c :: cs =>
    match matchSwiftVersionAt before (c :: cs) with
    | some m => some m
    | none => findSwiftVersionFrom (some c) cs

/-- The value `errUnsupportedVersion` of `LocateSwiftCompiler` (swiftc.go, 125). -/
def swiftErrUnsupportedVersion (desc : String) : GoError :=
  .plain ("Swift version could not be retrieved: " ++ desc ++ " returned unsupported version string")

/-- The version-parsing step of `LocateSwiftCompiler` (swiftc.go, 122-139). -/
def parseSwiftVersion (desc : String) (version : String) : Version × Option GoError :=
  let v : Version := { Text := version, Major := 0, Minor := 0, Patch := 0 }
  match findSwiftVersionFrom none version.toList with
  | none => (v, some (swiftErrUnsupportedVersion desc))
  | some (m1, m2, m3) =>
    let a1 := strconvAtoi m1
    let v := { v with Major := a1.1 }
    if a1.2 ≠ none then (v, some (swiftErrUnsupportedVersion desc)) else
    let a2 := strconvAtoi m2
    let v := { v with Minor := a2.1 }
    if a2.2 ≠ none then (v, some (swiftErrUnsupportedVersion desc)) else
    if m3.length > 0 then
      let a3 := strconvAtoi m3
      let v := { v with Patch := a3.1 }
      if a3.2 ≠ none then (v, some (swiftErrUnsupportedVersion desc)) else (v, none)
    else (v, none)

/-- The loop of `targetInfo.FindLibrary` (swiftc.go, 197-209) over the runtime library
paths still to visit; `name` already carries the `.a` suffix and `sdk` is
`info.Paths.SDKPath`. Both calls of `os.Stat` are made on `name`. -/
def targetInfo.FindLibrary.search (w : World) (sdk name : String) :
    List String → Sys → String × Sys
  | [], s => ("", s)
  | searchPath :: rest, s =>
    let libPath := w.pathJoin [searchPath, name]
    let st1 := osStat w name s
    if st1.1 = true then (libPath, st1.2)
    else if sdk ≠ "" then
      let libPath := w.pathJoin [sdk, libPath]
      let st2 := osStat w name st1.2
      if st2.1 = true then (libPath, st2.2)
      else targetInfo.FindLibrary.search w sdk name rest st2.2
    else targetInfo.FindLibrary.search w sdk name rest st1.2

/-- The method `targetInfo.FindLibrary` (swiftc.go, 181-212): the path found (empty when
none) and the receiver afterwards, whose `SDKPath` the method may fill in. -/
def targetInfo.FindLibrary (w : World) (info : targetInfo) (name : String) (s : Sys) :
    (String × targetInfo) × Sys :=
  let q : targetInfo × Sys :=
    if info.SDKPath = "" then
      let r := (execCommand "xcrun" ["--show-sdk-path"]).Output w s
      if r.1.2 = none then ({ info with SDKPath := r.1.1 }, r.2) else (info, r.2)
    else (info, s)
  let info := q.1
  let a : Bool × Sys := if w.isAbs name = true then osStat w name q.2 else (false, q.2)
  if a.1 = true then ((name, info), a.2)
  else
    let r := targetInfo.FindLibrary.search w info.SDKPath (name ++ ".a") info.RuntimeLibraryPaths a.2
    ((r.1, info), r.2)

/-- The first loop of the flag derivation in `LocateSwiftCompiler` (swiftc.go, 141-147),
over the compatibility libraries still to visit. -/
def LocateSwiftCompiler.libraryFlags (w : World) :
    List String → targetInfo → List String → Sys → (List String × targetInfo) × Sys
  | [], info, flags, s => ((flags, info), s)
  | lib :: rest, info, flags, s =>
    let f := info.FindLibrary w lib s
    if f.1.1 ≠ "" then
      LocateSwiftCompiler.libraryFlags w rest f.1.2 (flags ++ ["-force_load", f.1.1]) f.2
    else LocateSwiftCompiler.libraryFlags w rest f.1.2 (flags ++ ["-l" ++ lib]) f.2

/-- The second and third loop of the flag derivation (swiftc.go, 149-157). -/
def LocateSwiftCompiler.pathFlags (info : targetInfo) (flags : List String) : List String :=
  let flags := info.RuntimeLibraryPaths.foldl (fun acc path => acc ++ ["-L" ++ path]) flags
  if info.LibrariesRequireRPath = true then
    info.RuntimeLibraryPaths.foldl (fun acc path => acc ++ ["-rpath", path]) flags
  else flags

/-- The lookup part of `LocateSwiftCompiler` (swiftc.go, 96-105): the default description,
the lookup of the binary, and then the user flags (the split value of `SWIFTGO_SWIFTFLAGS`)
and the caller's flags appended to the fixed arguments. -/
def LocateSwiftCompiler.locate (w : World) (userFlags flags : List String) (tool : SwiftCompiler)
    (s : Sys) : (SwiftCompiler × Option GoError) × Sys :=
  let tool : SwiftCompiler :=
    if tool.toTool.Desc = "" then
      { tool with toTool :=
          { tool.toTool with Desc := "Swift compiler \"" ++ tool.toTool.Hint ++ "\"" } }
    else tool
  let l := tool.toTool.Locate w s
  let tool := { tool with toTool := l.1.1 }
  if l.1.2 ≠ none then ((tool, l.1.2), l.2) else
  let tool := { tool with toTool := { tool.toTool with Args := tool.toTool.Args ++ userFlags } }
  let tool := { tool with toTool := { tool.toTool with Args := tool.toTool.Args ++ flags } }
  ((tool, none), l.2)

/-- The last part of `LocateSwiftCompiler` (swiftc.go, 122-157) on the decoded target
information: the version and the linker flags. -/
def LocateSwiftCompiler.derive (w : World) (tool : SwiftCompiler) (info : targetInfo) (s : Sys) :
    (SwiftCompiler × Option GoError) × Sys :=
  let pv := parseSwiftVersion tool.toTool.Desc info.CompilerVersion
  let tool := { tool with Version := pv.1 }
  if pv.2 ≠ none then ((tool, pv.2), s) else
  let lf := LocateSwiftCompiler.libraryFlags w info.CompatibilityLibraries info tool.LinkerFlags s
  (({ tool with LinkerFlags := LocateSwiftCompiler.pathFlags lf.1.2 lf.1.1 }, none), lf.2)

/-- The query part of `LocateSwiftCompiler` (swiftc.go, 107-157): the target information
is asked of the located compiler, decoded, and handed to the last part. -/
def LocateSwiftCompiler.query (w : World) (tool : SwiftCompiler) (s : Sys) :
    (SwiftCompiler × Option GoError) × Sys :=
  let r := tool.toTool.Output w ["-print-target-info"] s
  if r.1.2.2 ≠ none then ((tool, r.1.2.2), r.2)
  else if r.1.2.1 ≠ 0 then
    ((tool, some (fmtErrorfW "Swift target information could not be retrieved: "
      (some (.toolExit r.1.2.1 tool.toTool.Desc)))), r.2)
  else
    match w.jsonTargetInfo r.1.1 with
    | none =>
      ((tool, some (.plain ("Swift target information could not be retrieved: "
        ++ tool.toTool.Desc ++ " returned invalid or unsupported data"))), r.2)
    | some info => LocateSwiftCompiler.derive w tool info r.2

/-- The cascade of `LocateSwiftCompiler` (swiftc.go, 81-94) on the initial tool: the
explicit override or else the `xcrun` probe. -/
def LocateSwiftCompiler.cascade (w : World) (tool : SwiftCompiler) (s : Sys) :
    (SwiftCompiler × Option GoError) × Sys :=
  let override := osGetenv s SwiftcOverrideKey
  if override ≠ "" then
    let sp := w.quotedSplit override
    match sp.2, sp.1 with
    | none, t :: ts =>
      (({ tool with toTool :=
            { tool.toTool with Desc := "Swift compiler \"" ++ override ++ "\"", Hint := t, Args := ts } },
        none), s)
    | err, args =>
      (({ tool with toTool := { tool.toTool with Args := args } },
        some (fmtErrorfW (SwiftcOverrideKey ++ " environment variable could not be parsed: ") err)), s)
  else
    let x := queryXCrun w "swiftc" s
    if x.1 ≠ "" then
      (({ tool with toTool := { tool.toTool with Hint := "xcrun swiftc", Path := x.1 } }, none), x.2)
    else ((tool, none), x.2)

/-- The tool that `LocateSwiftCompiler` starts from (swiftc.go, 62-71). -/
def LocateSwiftCompiler.initial : SwiftCompiler :=
  { toTool := { Desc := "", Hint := "swiftc", Path := "", Args := [] },
    Version := { Text := "", Major := 0, Minor := 0, Patch := 0 },
    LinkerFlags := ["-lobjc", "-Wl,-no_objc_category_merging"] }

/-- The function `LocateSwiftCompiler` (swiftc.go, 61-160): the tool and the error. -/
def LocateSwiftCompiler (w : World) (flags : List String) (s : Sys) :
    (SwiftCompiler × Option GoError) × Sys :=
  let tool := LocateSwiftCompiler.initial
  let u := w.quotedSplit (osGetenv s SwiftcFlagsKey)
  match u.2 with
  | some e =>
    ((tool, some (fmtErrorfW (SwiftcFlagsKey ++ " environment variable could not be parsed: ")
      (some e))), s)
  | none =>
    let c := LocateSwiftCompiler.cascade w tool s
    if c.1.2 ≠ none then c else
    let l := LocateSwiftCompiler.locate w u.1 flags c.1.1 c.2
    if l.1.2 ≠ none then l else LocateSwiftCompiler.query w l.1.1 l.2

/-! ## The revision of a binary (version.go) -/

/-- The loop of `GetRevision` (version.go, 30-41) over the build settings: the variables
`vcs`, `revision` and `modified` after it. -/
def GetRevision.scan (settings : List (String × String)) : String × String × String :=
  settings.foldl (fun acc setting =>
    if setting.1 = "vcs" then (setting.2, acc.2.1, acc.2.2)
    else if setting.1 = "vcs.revision" then (acc.1, setting.2, acc.2.2)
    else if setting.1 = "vcs.modified" then
      (if setting.2 = "true" then (acc.1, acc.2.1, "-modified") else acc)
    else acc) ("", "", "")

/-- The function `GetRevision` (version.go, 8-44): the build information of the running
binary when the path is empty, of the file at the path otherwise. -/
def GetRevision (w : World) (path : String) (s : Sys) : String × Sys :=
  if path = "" then
    match w.readBuildInfo with
    | none => ("", s)
    | some info =>
      ((GetRevision.scan info.Settings).1 ++ "-" ++ (GetRevision.scan info.Settings).2.1
        ++ (GetRevision.scan info.Settings).2.2, s)
  else
    match w.readBuildInfoFile path with
    | none => ("", s.record (.openFile path))
    | some info =>
      ((GetRevision.scan info.Settings).1 ++ "-" ++ (GetRevision.scan info.Settings).2.1
        ++ (GetRevision.scan info.Settings).2.2, s.record (.openFile path))

/-- The function `GetVersion` (version.go, 46-62). -/
def GetVersion (w : World) (path : String) (s : Sys) : String × Sys :=
  if path = "" then
    match w.readBuildInfo with
    | none => ("", s)
    | some info => (info.MainVersion, s)
  else
    match w.readBuildInfoFile path with
    | none => ("", s.record (.openFile path))
    | some info => (info.MainVersion, s.record (.openFile path))

/-! ## The internal C compiler wrapper (swiftgocc.go) -/

/-- The constant `SwiftGoCCBuildDirKey` (swiftgocc.go, 17). -/
def SwiftGoCCBuildDirKey : String := "__SWIFTGO_PRIVATE_BUILDDIR"

/-- The struct `SwiftGoCC` (swiftgocc.go, 20-25). -/
structure SwiftGoCC where
  toTool : Tool
  Revision : String
  deriving DecidableEq, Repr

/-- The function `queryExecutableDir` (utils.go, 85-97). -/
def queryExecutableDir (w : World) (tool : String) (s : Sys) : String × Sys :=
  if w.executable.2 ≠ none then ("", s) else
  let l := execLookPath w (w.pathJoin [w.pathDir w.executable.1, tool]) s
  if l.1.2 ≠ none then ("", l.2) else (l.1.1, l.2)

/-- The first part of `LocateSwiftGoCC` (swiftgocc.go, 40-60): the initial tool, then the
directory of the running binary or else the `GOPATH` root. -/
def LocateSwiftGoCC.cascade (w : World) (s : Sys) : SwiftGoCC × Sys :=
  let tool : SwiftGoCC :=
    { toTool := { Desc := "", Hint := "swiftgocc", Path := "", Args := [] }, Revision := "" }
  let q := queryExecutableDir w "swiftgocc" s
  if q.1 ≠ "" then
    ({ tool with toTool := { tool.toTool with Hint := q.1, Path := q.1 } }, q.2)
  else
    let root := osGetenv q.2 "GOPATH"
    let e : String × Sys := if root = "" then queryEnvFile w "GOPATH" q.2 else (root, q.2)
    if e.1 ≠ "" then
      ({ tool with toTool := { tool.toTool with Hint := w.pathJoin [e.1, "bin", "swiftgocc"] } }, e.2)
    else (tool, e.2)

/-- The function `LocateSwiftGoCC` (swiftgocc.go, 39-73): the tool and the error. -/
def LocateSwiftGoCC (w : World) (s : Sys) : (SwiftGoCC × Option GoError) × Sys :=
  let c := LocateSwiftGoCC.cascade w s
  let tool : SwiftGoCC :=
    if c.1.toTool.Desc = "" then
      { c.1 with toTool :=
          { c.1.toTool with Desc := "internal C compiler wrapper \"" ++ c.1.toTool.Hint ++ "\"" } }
    else c.1
  let l := tool.toTool.Locate w c.2
  let tool := { tool with toTool := l.1.1 }
  if l.1.2 ≠ none then ((tool, l.1.2), l.2) else
  let r := GetRevision w tool.toTool.Path l.2
  (({ tool with Revision := r.1 }, none), r.2)

/-! ## The driver (cmd/swiftgo/main.go) -/

/-- The argument vector after the first lines of both `main` functions (cmd/swiftgo/main.go,
77-83; cmd/swiftgocc/main.go, 32-38): an empty `os.Args` is replaced by the path of the
executable or, failing that, by `swiftgo`. -/
def effectiveArgs (w : World) (osArgs : List String) : List String :=
  if osArgs.length < 1 then
    (if w.executable.2 = none then [w.executable.1] else ["swiftgo"])
  else osArgs

/-- The text that `fmt.Printf(usage, ...)` writes for the topic `help swift` (main.go, 17-60
and 105-106); only its first paragraph is spelled out. -/
def usageOutput : String :=
  "SwiftGo is a wrapper for the standard Go tool that adds support for embedded\nSwift code when targeting darwin systems.\n"

/-- The text that `fmt.Fprintf(..., shortUsage, os.Args[0])` writes (main.go, 62-67). -/
def shortUsageOutput (arg0 : String) : String :=
  "\nThe Go build tool has been invoked through swiftgo, a wrapper that adds support\nfor embedded Swift code when targeting darwin systems.\n\nFor more about embedding Swift code, run '" ++ arg0 ++ " help swift'.\n"

/-- The condition of the revision check (main.go, 127) on the revision of the delegate and
the revision of the driver. -/
def revisionMismatch (delegate driver : String) : Prop :=
  delegate = "" ∨ driver = "" ∨ delegate ≠ driver

instance (delegate driver : String) : Decidable (revisionMismatch delegate driver) :=
  inferInstanceAs (Decidable (delegate = "" ∨ driver = "" ∨ delegate ≠ driver))

/-- The export of the three bridge variables (main.go, 142-148): the first error, if any. -/
def mainExitCode.exportBridge (w : World) (goTool : GoTool) (buildDir : String) (s : Sys) :
    Option GoError × Sys :=
  let r1 := osSetenv w SwiftGoCCBuildDirKey buildDir s
  if r1.1 ≠ none then r1 else
  let r2 := osSetenv w CCOverrideKey ((goTool.Env.lookup "CC").getD "") r1.2
  if r2.1 ≠ none then r2 else
  osSetenv w "CC" "swiftgocc" r2.2

/-- The delegation of `mainExitCode` (main.go, 141-171), once the build directory exists:
the bridge variables are exported and the invocation is forwarded to the Go tool. -/
def mainExitCode.forward (w : World) (args : List String) (shortHelp : Bool) (goTool : GoTool)
    (buildDir : String) (s : Sys) : Int × Sys :=
  let e := mainExitCode.exportBridge w goTool buildDir s
  match e.1 with
  | some err =>
    (2, e.2.record (.print ("swiftgo: environment configuration failed:  " ++ err.Error ++ "\n")))
  | none =>
    let r := goTool.toTool.Run w args.tail e.2
    match r.1.2 with
    | some err => (2, r.2.record (.print ("swiftgo: " ++ err.Error ++ "\n")))
    | none =>
      if shortHelp = true then (r.1.1, r.2.record (.print (shortUsageOutput (args.headD ""))))
      else (r.1.1, r.2)

/-- The part of `mainExitCode` after the revision check (main.go, 132-171): the temporary
build directory is created, and removed again by the deferred call whatever the
delegation returns. -/
def mainExitCode.build (w : World) (args : List String) (shortHelp : Bool) (goTool : GoTool)
    (s : Sys) : Int × Sys :=
  let m := osMkdirTemp w "" "swiftgo-build" s
  match m.1.2 with
  | some err =>
    (2, m.2.record (.print ("swiftgo: could not create build directory:  " ++ err.Error ++ "\n")))
  | none =>
    let f := mainExitCode.forward w args shortHelp goTool m.1.1 m.2
    (f.1, f.2.record (.removeAll m.1.1))

/-- The part of `mainExitCode` from the first locate on (main.go, 111-171). -/
def mainExitCode.locate (w : World) (args : List String) (shortHelp : Bool) (s : Sys) :
    Int × Sys :=
  let g := LocateGoTool w s
  match g.1.2.bind GoError.asToolExit with
  | some code => (code, g.2)
  | none =>
    match g.1.2 with
    | some err => (2, g.2.record (.print ("swiftgo: " ++ err.Error ++ "\n")))
    | none =>
      let c := LocateSwiftGoCC w g.2
      match c.1.2 with
      | some err =>
        (2, c.2.record (.print ("swiftgo: " ++ err.Error
          ++ "; reinstalling swiftgo might solve the issue\n")))
      | none =>
        let r := GetRevision w "" c.2
        if revisionMismatch c.1.1.Revision r.1 then
          (2, r.2.record (.print ("swiftgo: revision mismatch between driver binary and "
            ++ c.1.1.toTool.Desc ++ "; reinstalling swiftgo might solve the issue\n")))
        else mainExitCode.build w args shortHelp g.1.1 r.2

/-- The command of the run (main.go, 88-94): the first argument, `help` when there is
none. -/
def mainExitCode.cmd (args : List String) : String :=
  if args.length > 1 then args.getD 1 "" else "help"

/-- The help topic of the run (main.go, 100): the arguments joined by blanks. -/
def mainExitCode.topic (args : List String) : String :=
  " ".intercalate args.tail

/-- The variable `shortHelp` of `mainExitCode` after the switch on the topic (main.go,
88-104): set when there is no command and for the topics `help` and `help build`. -/
def mainExitCode.shortHelp (args : List String) : Bool :=
  if mainExitCode.cmd args = "help" ∧
      (mainExitCode.topic args = "help" ∨ mainExitCode.topic args = "help build") then true
  else decide (¬ args.length > 1)

/-- The run asks for the help topic `swift` (main.go, 97 and 104). -/
def mainExitCode.usageTopic (args : List String) : Prop :=
  mainExitCode.cmd args = "help" ∧ mainExitCode.topic args = "help swift"

instance (args : List String) : Decidable (mainExitCode.usageTopic args) :=
  inferInstanceAs (Decidable (mainExitCode.cmd args = "help" ∧
    mainExitCode.topic args = "help swift"))

/-- The function `mainExitCode` (main.go, 73-172) on the argument vector `os.Args`: the exit
code of the process. For the help topic `swift` it prints the usage text and returns 0
(main.go, 104-107). -/
def mainExitCode (w : World) (osArgs : List String) (s : Sys) : Int × Sys :=
  let args := effectiveArgs w osArgs
  if mainExitCode.usageTopic args then (0, s.record (.print usageOutput))
  else mainExitCode.locate w args (mainExitCode.shortHelp args) s

/-! ## The delegate (cmd/swiftgocc/main.go) -/

/-- The message of the delegate when a bridge variable is missing (cmd/swiftgocc/main.go,
57), as `fmt.Fprintln` writes it. -/
def swiftgocc.notConfigured : String :=
  "swiftgocc: environment variables are not configured correctly; ensure swiftgocc is only invoked through the swiftgo driver\n"

/-- The function `main` of the delegate (cmd/swiftgocc/main.go, 30-77): the code handed to
`os.Exit`. The `Config` fields read from `GOARCH`, `GOOS` and `TOOLEXEC_IMPORTPATH` are not
used by the function and are left out. -/
def swiftgocc.main (w : World) (osArgs : List String) (s : Sys) : Int × Sys :=
  let args := effectiveArgs w osArgs
  let buildDir := osGetenv s SwiftGoCCBuildDirKey
  if buildDir = "" ∨ osLookupEnv s CCOverrideKey = none then
    (1, s.record (.print swiftgocc.notConfigured))
  else
    let c := LocateCCompiler w s
    match c.1.2 with
    | some err => (1, c.2.record (.print ("swiftgo: " ++ err.Error ++ "\n")))
    | none =>
      let r := c.1.1.toTool.Run w args.tail c.2
      match r.1.2 with
      | some err => (1, r.2.record (.print ("swiftgo: " ++ err.Error ++ "\n")))
      | none => (r.1.1, r.2)

/-! ## A concrete world, used to run the definitions on examples -/

/-- Modelled from the spec: the splitting of a shell-quoted command line, which package
`internal/quoted` (source missing) does in the program; used by the example world only.
Fields are separated by blanks, a field may be enclosed in single or double quotes, and a
quote that is not closed is an error. The arguments are the open quote, the field being
read and the fields read so far. -/
def exampleSplitFrom : List Char → Option Char → Option (List Char) → List String →
    List String × Option GoError
  | [], none, none, acc => (acc, none)
  | [], none, some f, acc => (acc ++ [String.mk f], none)
  | [], some _, _, _ => ([], some (.plain "unterminated quoted string"))
  | c :: cs, some q, cur, acc =>
    if c = q then exampleSplitFrom cs none none (acc ++ [String.mk (cur.getD [])])
    else exampleSplitFrom cs (some q) (some (cur.getD [] ++ [c])) acc
  | c :: cs, none, none, acc =>
    if c = ' ' ∨ c = '\t' ∨ c = '\n' ∨ c = '\r' then exampleSplitFrom cs none none acc
    else if c = '"' ∨ c = Char.ofNat 39 then exampleSplitFrom cs (some c) (some []) acc
    else exampleSplitFrom cs none (some [c]) acc
  | c :: cs, none, some f, acc =>
    if c = ' ' ∨ c = '\t' ∨ c = '\n' ∨ c = '\r' then
      exampleSplitFrom cs none none (acc ++ [String.mk f])
    else exampleSplitFrom cs none (some (f ++ [c])) acc

/-- The target information that the Swift compiler of the example world reports: two
compatibility libraries, two runtime library paths, run-path required. -/
def exampleTargetInfo : targetInfo :=
  { CompilerVersion := "Apple Swift version 5.9.2 (swiftlang-5.9.2.2.56 clang-1500.1.0.2.5)",
    CompatibilityLibraries := ["swiftCompatibility56", "swiftCompatibilityPacks"],
    LibrariesRequireRPath := true,
    SDKPath := "",
    RuntimeLibraryPaths := ["/usr/lib/swift", "/opt/swift/lib"] }

/-- The child processes of the example world, by argument vector: a Go tool that reports
version 1.22.3 and whose `build` subcommand exits with status 1, no `xcrun`, a clang at
`/usr/bin/clang`, a C compiler at `/usr/bin/gcc` that rejects the probe, a file at
`/opt/broken/cc` that cannot be executed, and a Swift compiler. -/
def exampleRun (_env : Env) (cmd : Cmd) : ProcResult :=
  if cmd.Args.head? = some "xcrun" then
    ⟨"", "", some (.plain "exec: \"xcrun\": executable file not found in $PATH")⟩
  else if cmd.Args.head? = some "/opt/broken/cc" then
    ⟨"", "", some (.plain "fork/exec /opt/broken/cc: exec format error")⟩
  else if cmd.Args.head? = some "/usr/bin/gcc" then ⟨"", "", some (.execExit 1)⟩
  else if cmd.Args.getLast? = some "version" then
    ⟨"go version go1.22.3 darwin/arm64\n", "go version go1.22.3 darwin/arm64\n", none⟩
  else if cmd.Args.getLast? = some "-json" then ⟨"GOENV-JSON", "GOENV-JSON", none⟩
  else if cmd.Args.getLast? = some "-print-target-info" then ⟨"TARGET-INFO", "TARGET-INFO", none⟩
  else if cmd.Args.tail.head? = some "build" then ⟨"", "", some (.execExit 1)⟩
  else ⟨"", "", none⟩

/-- The build information of the binaries of the example world: built from a clean
checkout of one commit. -/
def exampleBuildInfo : BuildInfo :=
  { MainVersion := "(devel)",
    Settings := [("-buildmode", "exe"), ("GOOS", "darwin"), ("vcs", "git"),
      ("vcs.revision", "4f9c2d7"), ("vcs.time", "2024-03-01T10:00:00Z"),
      ("vcs.modified", "false")] }

/-- A concrete world: a search path with `go`, `clang`, `gcc`, `swiftc` and the broken
compiler, the driver at `/usr/local/bin/swiftgo` with the delegate beside it, both built
from the same commit, a file system whose only archive is `swiftCompatibility56.a` in the
working directory, no Go environment file. -/
def exampleWorld : World where
  quotedSplit := fun s => exampleSplitFrom s.toList none none []
  lookPath := fun file =>
    if file = "go" ∨ file = "/usr/local/go/bin/go" then ("/usr/local/go/bin/go", none)
    else if file = "clang" then ("/usr/bin/clang", none)
    else if file = "gcc" then ("/usr/bin/gcc", none)
    else if file = "swiftc" ∨ file = "/usr/bin/swiftc" then ("/usr/bin/swiftc", none)
    else if file = "/opt/broken/cc" then ("/opt/broken/cc", none)
    else if file = "/usr/local/bin/swiftgocc" then ("/usr/local/bin/swiftgocc", none)
    else ("", some (.plain ("exec: \"" ++ file ++ "\": executable file not found in $PATH")))
  run := exampleRun
  stat := fun path => path = "swiftCompatibility56.a"
  readLines := fun _ => none
  userConfigDir := ("/Users/dev/Library/Application Support", none)
  executable := ("/usr/local/bin/swiftgo", none)
  pathJoin := fun elem => "/".intercalate (elem.filter (fun e => e ≠ ""))
  pathDir := fun path =>
    String.mk ((path.toList.reverse.dropWhile (fun c => c ≠ '/')).drop 1).reverse
  isAbs := fun path => path.toList.head? = some '/'
  trimSpace := String.trim
  jsonEnv := fun data => if data = "GOENV-JSON" then ([("CC", "clang"), ("GOOS", "darwin")], none)
    else ([], some (.plain "unexpected end of JSON input"))
  jsonTargetInfo := fun data => if data = "TARGET-INFO" then some exampleTargetInfo else none
  readBuildInfo := some exampleBuildInfo
  readBuildInfoFile := fun path =>
    if path = "/usr/local/bin/swiftgocc" then some exampleBuildInfo else none
  mkdirTemp := fun _ pattern => ("/tmp/" ++ pattern ++ "2704561238", none)
  setenvError := fun _ _ => none

/-- The example world after a partial upgrade: the delegate beside the driver was built
from another commit. -/
def staleDelegateWorld : World :=
  { exampleWorld with
    readBuildInfoFile := fun path =>
      if path = "/usr/local/bin/swiftgocc" then
        some { MainVersion := "(devel)",
               Settings := [("vcs", "git"), ("vcs.revision", "0a1b2c3"), ("vcs.modified", "false")] }
      else none }

/-- The example world with the Go tool answering the help topic `swift` as the real tool
does an unknown topic: with exit status 2. -/
def unknownTopicWorld : World :=
  { exampleWorld with
    run := fun env cmd =>
      if cmd.Args.tail = ["help", "swift"] then ⟨"", "", some (.execExit 2)⟩
      else exampleRun env cmd }

/-- The example world with driver and delegate built outside version control: their build
information has no version-control setting. -/
def plainBuildWorld : World :=
  { exampleWorld with
    readBuildInfo := some { MainVersion := "(devel)", Settings := [("-buildmode", "exe"), ("GOOS", "darwin")] }
    readBuildInfoFile := fun path =>
      if path = "/usr/local/bin/swiftgocc" then
        some { MainVersion := "(devel)", Settings := [("-buildmode", "exe"), ("GOOS", "darwin")] }
      else none }

/-! ## Notions used to state the properties -/

/-- The child behind an invocation result terminated with exit status `c`: the error of the
invocation is an exit-status error with code `c` (found by `errors.As`), or it is nil and
`c` is 0. -/
def terminatedWith (invocationError : Option GoError) (c : Int) : Prop :=
  invocationError.bind GoError.asExecExit = some c ∨ (invocationError = none ∧ c = 0)

/-- The archive that `FindLibrary` resolves for a library name, the empty string when it
resolves none. -/
def resolvedArchive (w : World) (info : targetInfo) (name : String) : String :=
  (info.FindLibrary w name ⟨[], []⟩).1.1

/-- The linker flags in the order of the specification: the two baseline flags, then for
each compatibility library in declaration order a force-load flag with the archive that
`resolve` gives for it or else a link-by-name flag, then a search-path flag for each
runtime library path, then, if run paths are required, a run-path flag for each runtime
library path. -/
def expectedLinkerFlags (resolve : String → String) (info : targetInfo) : List String :=
  ["-lobjc", "-Wl,-no_objc_category_merging"]
    ++ info.CompatibilityLibraries.flatMap
        (fun lib => if resolve lib ≠ "" then ["-force_load", resolve lib] else ["-l" ++ lib])
    ++ info.RuntimeLibraryPaths.map (fun path => "-L" ++ path)
    ++ (if info.LibrariesRequireRPath = true then
          info.RuntimeLibraryPaths.flatMap (fun path => ["-rpath", path])
        else [])

/-- The fixed arguments that the override of the Swift compiler contributes: tokens 2 to N
of `SWIFTGO_SWIFTC`, none when there is no override. -/
def swiftOverrideArgs (w : World) (s : Sys) : List String :=
  if osGetenv s SwiftcOverrideKey = "" then []
  else (w.quotedSplit (osGetenv s SwiftcOverrideKey)).1.tail

/-! ### The stages of a run of the driver -/

/-- The Go tool that a run of the driver locates first, and the state after that. -/
def driverGo (w : World) (s : Sys) : (GoTool × Option GoError) × Sys :=
  LocateGoTool w s

/-- The delegate that a run of the driver locates next, and the state after that. -/
def driverCC (w : World) (s : Sys) : (SwiftGoCC × Option GoError) × Sys :=
  LocateSwiftGoCC w (driverGo w s).2

/-- The driver's own revision, read next, and the state after that. -/
def driverRevision (w : World) (s : Sys) : String × Sys :=
  GetRevision w "" (driverCC w s).2

/-- The temporary build directory that the run creates next, and the state after that. -/
def driverBuildDir (w : World) (s : Sys) : (String × Option GoError) × Sys :=
  osMkdirTemp w "" "swiftgo-build" (driverRevision w s).2

/-- The export of the bridge variables that the run performs next: its error and the state
after it. -/
def driverBridge (w : World) (s : Sys) : Option GoError × Sys :=
  mainExitCode.exportBridge w (driverGo w s).1.1 (driverBuildDir w s).1.1 (driverBuildDir w s).2

/-- The command by which the run forwards its arguments to the Go tool. -/
def driverCommand (w : World) (osArgs : List String) (s : Sys) : Cmd :=
  (driverGo w s).1.1.toTool.Command Forward (effectiveArgs w osArgs).tail

/-- The run reaches the revision check: it is not a request for the help topic `swift`, and
both the Go tool and the delegate are located. -/
def reachesCheck (w : World) (osArgs : List String) (s : Sys) : Prop :=
  ¬ mainExitCode.usageTopic (effectiveArgs w osArgs) ∧ (driverGo w s).1.2 = none ∧
    (driverCC w s).1.2 = none

/-- The run reaches the delegation: it reaches the revision check and passes it, the build
directory is created and the bridge variables are exported. -/
def reachesDelegation (w : World) (osArgs : List String) (s : Sys) : Prop :=
  reachesCheck w osArgs s ∧
    ¬ revisionMismatch (driverCC w s).1.1.Revision (driverRevision w s).1 ∧
    (driverBuildDir w s).1.2 = none ∧ (driverBridge w s).1 = none

instance (w : World) (osArgs : List String) (s : Sys) : Decidable (reachesCheck w osArgs s) :=
  inferInstanceAs (Decidable (¬ mainExitCode.usageTopic (effectiveArgs w osArgs) ∧
    (driverGo w s).1.2 = none ∧ (driverCC w s).1.2 = none))

instance (w : World) (osArgs : List String) (s : Sys) :
    Decidable (reachesDelegation w osArgs s) :=
  inferInstanceAs (Decidable (reachesCheck w osArgs s ∧
    ¬ revisionMismatch (driverCC w s).1.1.Revision (driverRevision w s).1 ∧
    (driverBuildDir w s).1.2 = none ∧ (driverBridge w s).1 = none))

/-- An effect of looking something up: a lookup on the search path, the reading of a file,
or a message. No process is started, no variable set and no directory created. -/
def lookupEvent : Event → Prop
  | .lookPath _ => True
  | .openFile _ => True
  | .print _ => True
  | _ => False

/-- An effect of locating the tool `t`: an effect of looking something up, or the start of
the `version` or the `env -json` query of `t` itself. -/
def locateEvent (t : Tool) : Event → Prop
  | .lookPath _ => True
  | .openFile _ => True
  | .print _ => True
  | .start cmd _ =>
    cmd = t.Command CaptureOutput ["version"] ∨ cmd = t.Command CaptureOutput ["env", "-json"]
  | _ => False

/-- The state `s2` comes from the state `s1` by effects that all satisfy `P` and that leave
the environment as it is. -/
def Sys.Grows (P : Event → Prop) (s1 s2 : Sys) : Prop :=
  s2.env = s1.env ∧ ∃ extra, s2.log = s1.log ++ extra ∧ ∀ e ∈ extra, P e

/-! ### The revision in the words of the specification -/

/-- The value of a build setting: that of the last entry with the key, the empty string
when there is none. -/
def settingValue (settings : List (String × String)) (key : String) : String :=
  ((settings.reverse.find? (fun b => b.1 = key)).map (fun b => b.2)).getD ""

/-- The revision text of a build-information record: the version-control kind, a dash, the
commit, and `-modified` iff the record says that the work tree was modified. -/
def revisionText (settings : List (String × String)) : String :=
  settingValue settings "vcs" ++ "-" ++ settingValue settings "vcs.revision"
    ++ (if ("vcs.modified", "true") ∈ settings then "-modified" else "")

/-- The build information that `GetRevision` reads for a path: of the running binary for
the empty path, of the file otherwise. -/
def buildInfoAt (w : World) (path : String) : Option BuildInfo :=
  if path = "" then w.readBuildInfo else w.readBuildInfoFile path

/-- The record has no version-control setting. -/
def noVcsSettings (settings : List (String × String)) : Prop :=
  ∀ b ∈ settings, b.1 ≠ "vcs" ∧ b.1 ≠ "vcs.revision" ∧ b.1 ≠ "vcs.modified"

/-! ### Notions for the version grammar -/

/-- A number: a non-empty run of ASCII digits. -/
def IsNumber (ds : List Char) : Prop :=
  ds ≠ [] ∧ ∀ c ∈ ds, isDigitChar c = true

/-- The text does not start with a word character. -/
def NoWordAhead (rest : List Char) : Prop :=
  ∀ c, rest.head? = some c → isWordChar c = false

/-- The text does not end with a word character. -/
def NoWordBehind (seen : List Char) : Prop :=
  ∀ c, seen.getLast? = some c → isWordChar c = false

/-- The text `rest` reads `<major>.<minor>[.<patch>]` and ends before something that is
not a word character; the patch is read whenever a patch can be read that way. -/
def VersionAhead (rest maj min pat : List Char) : Prop :=
  IsNumber maj ∧ IsNumber min ∧ ∃ post, NoWordAhead post ∧
    ((IsNumber pat ∧ rest = maj ++ '.' :: (min ++ '.' :: (pat ++ post))) ∨
     (pat = [] ∧ rest = maj ++ '.' :: (min ++ post) ∧
      ¬ ∃ p post2, IsNumber p ∧ NoWordAhead post2 ∧ post = '.' :: (p ++ post2)))

/-- After the text `seen`, the text `tail` starts a delimited version. -/
def GoVersionAt (seen tail maj min pat : List Char) : Prop :=
  NoWordBehind seen ∧ ∃ r1, tail = 'g' :: 'o' :: r1 ∧ VersionAhead r1 maj min pat

/-- The leftmost delimited version of the text reads `maj.min[.pat]`. -/
def LeftmostGoVersion (text maj min pat : List Char) : Prop :=
  ∃ pre tail, text = pre ++ tail ∧ GoVersionAt pre tail maj min pat ∧
    ∀ pre2 tail2 a b c, text = pre2 ++ tail2 → GoVersionAt pre2 tail2 a b c →
      pre.length ≤ pre2.length

/-- The text contains `go<major>.<minor>` somewhere. -/
def HasGoVersion (text : List Char) : Prop :=
  ∃ pre maj min post, IsNumber maj ∧ IsNumber min ∧
    text = pre ++ 'g' :: 'o' :: (maj ++ '.' :: (min ++ post))

/-! ## Properties -/

/-- The argument vector of a built command, for every mode: the name it starts with is the
path of the tool. -/
theorem Command_shape (t : Tool) (m : ForwardMode) (extra : List String) :
    (t.Command m extra).Args.head? = some t.Path ∧
    (t.Command m extra).Args = t.Path :: (t.Args ++ extra) := by
  cases hA : t.Args with
  | nil => simp only [Tool.Command, hA, execCommand]; split_ifs <;> simp
  | cons a as =>
    have hl : (a :: as).length > 0 := by simp
    simp only [Tool.Command, hA, execCommand, hl, if_true]; split_ifs <;> simp

/-- The output stream of a built command is forwarded iff the mode has the flag
`ForwardOutput`. -/
theorem Command_Stdout (t : Tool) (m : ForwardMode) (extra : List String) :
    (t.Command m extra).Stdout = true ↔ Int.land m ForwardOutput ≠ 0 := by
  simp only [Tool.Command, execCommand]
  split_ifs <;> simp_all

/-- C1: for every tool, forwarding mode and argument list, `Tool.Command` builds a command
for `tool.Path`, the name that its argument vector starts with, whose arguments are the
tool's fixed arguments followed by the given ones (the given ones alone when the tool has
no fixed arguments), whatever the mode. -/
theorem Tool_Command_args (tool : Tool) (mode mode2 : ForwardMode) (extra : List String) :
    (tool.Command mode extra).Args.head? = some tool.Path ∧
    (tool.Command mode extra).Args = tool.Path :: (tool.Args ++ extra) ∧
    (({ tool with Args := [] } : Tool).Command mode extra).Args = tool.Path :: extra ∧
    (tool.Command mode2 extra).Args = (tool.Command mode extra).Args := by
  refine ⟨(Command_shape tool mode extra).1, (Command_shape tool mode extra).2, ?_, ?_⟩
  · simpa using (Command_shape { tool with Args := [] } mode extra).2
  · rw [(Command_shape tool mode2 extra).2, (Command_shape tool mode extra).2]

/-- What `processInvocationError` returns in each of its three cases. -/
theorem processInvocationError_cases (tool : Tool) (e : Option GoError) :
    (∀ c, terminatedWith e c → tool.processInvocationError e = (c, none)) ∧
    (∀ x, (tool.processInvocationError e).2 = some x →
      e ≠ none ∧ e.bind GoError.asExecExit = none ∧ (tool.processInvocationError e).1 = 0) := by
  constructor
  · intro c h
    rcases h with h | ⟨h, hc⟩
    · simp [Tool.processInvocationError, h]
    · subst h; subst hc; simp [Tool.processInvocationError]
  · intro x hx
    unfold Tool.processInvocationError at hx ⊢
    cases hb : e.bind GoError.asExecExit with
    | some c => simp [hb] at hx
    | none =>
      by_cases hn : e = none
      · simp [hb, hn] at hx
      · simp [hb, hn]

/-- C2: for `Run`, `Output` and `CombinedOutput`, when the child terminated with exit status
`c` the operation returns exit code `c` and a nil error; when the operation returns a
non-nil error the invocation failed with something that is not an exit-status error. -/
theorem exit_status_is_not_an_error (w : World) (tool : Tool) (args : List String) (s : Sys)
    (c : Int) :
    (terminatedWith (w.run s.env (tool.Command Forward args)).err c →
      (tool.Run w args s).1 = (c, none)) ∧
    (terminatedWith (w.run s.env (tool.Command CaptureOutput args)).err c →
      (tool.Output w args s).1.2 = (c, none)) ∧
    (terminatedWith (w.run s.env (tool.Command ForwardInput args)).err c →
      (tool.CombinedOutput w args s).1.2 = (c, none)) ∧
    ((tool.Run w args s).1.2 ≠ none →
      ∀ d, ¬ terminatedWith (w.run s.env (tool.Command Forward args)).err d) ∧
    ((tool.Output w args s).1.2.2 ≠ none →
      ∀ d, ¬ terminatedWith (w.run s.env (tool.Command CaptureOutput args)).err d) ∧
    ((tool.CombinedOutput w args s).1.2.2 ≠ none →
      ∀ d, ¬ terminatedWith (w.run s.env (tool.Command ForwardInput args)).err d) := by
  have neg : ∀ e : Option GoError, (tool.processInvocationError e).2 ≠ none →
      ∀ d, ¬ terminatedWith e d := by
    intro e he d hd
    exact he (by rw [(processInvocationError_cases tool e).1 d hd])
  refine ⟨?_, ?_, ?_, ?_, ?_, ?_⟩
  · intro h; exact (processInvocationError_cases tool _).1 c h
  · intro h; exact (processInvocationError_cases tool _).1 c h
  · intro h; exact (processInvocationError_cases tool _).1 c h
  · intro h; exact neg _ h
  · intro h; exact neg _ h
  · intro h; exact neg _ h

/-- C2 at a concrete input: the `build` subcommand of the example Go tool exits with status
1, and `Run` returns exit code 1 with a nil error. -/
theorem exit_status_is_not_an_error_witness :
    terminatedWith (exampleWorld.run [] (Tool.Command ⟨"Go tool", "go", "/usr/local/go/bin/go", []⟩
      Forward ["build", "./..."])).err 1 ∧
    (Tool.Run exampleWorld ⟨"Go tool", "go", "/usr/local/go/bin/go", []⟩ ["build", "./..."] ⟨[], []⟩).1
      = (1, none) :=
  ⟨Or.inl (by decide),
   (exit_status_is_not_an_error exampleWorld ⟨"Go tool", "go", "/usr/local/go/bin/go", []⟩
      ["build", "./..."] ⟨[], []⟩ 1).1 (Or.inl (by decide))⟩

/-- C3 at a failing input: the example C compiler binary cannot be executed, the invocation
fails with `fork/exec /opt/broken/cc: exec format error`, and `processInvocationError`
returns exit code 0 with an error that carries the tool's description but has no `Unwrap`
and whose chain does not hold the original failure: the `%w` operand was nil. -/
theorem processInvocationError_loses_cause :
    Tool.processInvocationError ⟨"C compiler \"/opt/broken/cc\"", "/opt/broken/cc", "/opt/broken/cc", []⟩
        (some (.plain "fork/exec /opt/broken/cc: exec format error"))
      = (0, some (.plain "C compiler \"/opt/broken/cc\" invocation failed: %!w(<nil>)")) ∧
    ((Tool.processInvocationError ⟨"C compiler \"/opt/broken/cc\"", "/opt/broken/cc", "/opt/broken/cc", []⟩
        (some (.plain "fork/exec /opt/broken/cc: exec format error"))).2.bind GoError.Unwrap) = none := by
  decide

/-- A digit is a word character. -/
theorem digit_is_word (c : Char) (h : isDigitChar c = true) : isWordChar c = true := by
  simp only [isDigitChar, decide_eq_true_eq] at h
  simp [isWordChar, h]

/-- A run of digits followed by something that is not a digit is what the longest-run scan
takes, and the rest is what it leaves. -/
theorem span_digits_unique (ds tail : List Char) (hd : ∀ c ∈ ds, isDigitChar c = true)
    (ht : ∀ c, tail.head? = some c → isDigitChar c = false) :
    (ds ++ tail).takeWhile isDigitChar = ds ∧ (ds ++ tail).dropWhile isDigitChar = tail := by
  have h0 : tail.takeWhile isDigitChar = [] ∧ tail.dropWhile isDigitChar = tail := by
    cases tail with
    | nil => simp
    | cons c cs =>
      have := ht c rfl
      simp [List.takeWhile_cons, List.dropWhile_cons, this]
  rw [List.takeWhile_append_of_pos hd, List.dropWhile_append_of_pos hd, h0.1, h0.2]
  simp

/-- The longest-run scan splits a text into digits and a rest that starts with no digit. -/
theorem span_digits (l : List Char) :
    l = l.takeWhile isDigitChar ++ l.dropWhile isDigitChar ∧
    (∀ c ∈ l.takeWhile isDigitChar, isDigitChar c = true) ∧
    (∀ c, (l.dropWhile isDigitChar).head? = some c → isDigitChar c = false) := by
  refine ⟨(List.takeWhile_append_dropWhile isDigitChar l).symm, fun c hc => List.mem_takeWhile_imp hc, ?_⟩
  intro c hc
  have := List.head?_dropWhile_not isDigitChar l
  rw [hc] at this
  simpa using this

/-- A number ends with a word character. -/
theorem number_getLast (ds : List Char) (h : IsNumber ds) :
    ∃ d, ds.getLast? = some d ∧ isWordChar d = true := by
  obtain ⟨hne, hd⟩ := h
  refine ⟨ds.getLast hne, List.getLast?_eq_getLast ds hne, digit_is_word _ (hd _ (List.getLast_mem hne))⟩

/-- After a number there is a word boundary exactly when no word character follows. -/
theorem boundary_after_number (ds rest : List Char) (h : IsNumber ds) :
    wordBoundary ds.getLast? rest.head? = true ↔ NoWordAhead rest := by
  obtain ⟨d, hd, hw⟩ := number_getLast ds h
  rw [hd]
  unfold wordBoundary NoWordAhead
  cases hr : rest.head? with
  | none => simp [hw]
  | some c => cases hc : isWordChar c <;> simp [hw, hc]

/-- A text that starts with no word character starts with no digit. -/
theorem noWordAhead_not_digit (rest : List Char) (h : NoWordAhead rest) :
    ∀ c, rest.head? = some c → isDigitChar c = false := by
  intro c hc
  cases hd : isDigitChar c with
  | false => rfl
  | true => have := h c hc; rw [digit_is_word c hd] at this; exact Bool.noConfusion this

/-- What the matcher of the pattern tail returns is a delimited version at that place. -/
theorem matchVersionTail_sound (rest maj min pat : List Char)
    (h : matchVersionTail rest = some (maj, min, pat)) : VersionAhead rest maj min pat := by
  obtain ⟨e1, d1, t1⟩ := span_digits rest
  by_cases hmaj : rest.takeWhile isDigitChar = []
  · simp [matchVersionTail, hmaj] at h
  simp only [matchVersionTail, hmaj, if_false] at h
  have hM : IsNumber (rest.takeWhile isDigitChar) := ⟨hmaj, d1⟩
  split at h
  · rename_i r3 hr3
    obtain ⟨e3, d3, t3⟩ := span_digits r3
    by_cases hmin : r3.takeWhile isDigitChar = []
    · simp [hmin] at h
    simp only [hmin, if_false] at h
    have hm : IsNumber (r3.takeWhile isDigitChar) := ⟨hmin, d3⟩
    split at h
    · rename_i r5 hr5
      obtain ⟨e5, d5, t5⟩ := span_digits r5
      by_cases hp : r5.takeWhile isDigitChar ≠ [] ∧
          wordBoundary (r5.takeWhile isDigitChar).getLast? (r5.dropWhile isDigitChar).head? = true
      · rw [if_pos hp] at h
        simp only [Option.some.injEq, Prod.mk.injEq] at h
        obtain ⟨rfl, rfl, rfl⟩ := h
        have hP : IsNumber (r5.takeWhile isDigitChar) := ⟨hp.1, d5⟩
        refine ⟨hM, hm, r5.dropWhile isDigitChar, (boundary_after_number _ _ hP).1 hp.2, Or.inl ⟨hP, ?_⟩⟩
        rw [← e5, ← hr5, ← e3, ← hr3, ← e1]
      · rw [if_neg hp] at h
        by_cases hb : wordBoundary (r3.takeWhile isDigitChar).getLast? (some '.') = true
        · rw [if_pos hb] at h
          simp only [Option.some.injEq, Prod.mk.injEq] at h
          obtain ⟨rfl, rfl, rfl⟩ := h
          refine ⟨hM, hm, '.' :: r5, ?_, Or.inr ⟨rfl, ?_, ?_⟩⟩
          · intro c hc
            simp only [List.head?_cons, Option.some.injEq] at hc
            subst hc
            decide
          · rw [← hr5, ← e3, ← hr3, ← e1]
          · rintro ⟨p, post2, hpn, hpw, hpe⟩
            simp only [List.cons.injEq, true_and] at hpe
            obtain ⟨tk, dk⟩ := span_digits_unique p post2 hpn.2 (noWordAhead_not_digit _ hpw)
            rw [← hpe] at tk dk
            apply hp
            rw [tk, dk]
            exact ⟨hpn.1, (boundary_after_number _ _ hpn).2 hpw⟩
        · rw [if_neg hb] at h
          exact Option.noConfusion h
    · rename_i r4 hr4
      by_cases hb : wordBoundary (r3.takeWhile isDigitChar).getLast? (r3.dropWhile isDigitChar).head? = true
      · rw [if_pos hb] at h
        simp only [Option.some.injEq, Prod.mk.injEq] at h
        obtain ⟨rfl, rfl, rfl⟩ := h
        refine ⟨hM, hm, r3.dropWhile isDigitChar, (boundary_after_number _ _ hm).1 hb, Or.inr ⟨rfl, ?_, ?_⟩⟩
        · rw [← e3, ← hr3, ← e1]
        · rintro ⟨p, post2, _, _, hpe⟩
          exact hr4 _ hpe
      · rw [if_neg hb] at h
        exact Option.noConfusion h
  · exact Option.noConfusion h

/-- The matcher of the pattern tail returns the delimited version at that place. -/
theorem matchVersionTail_complete (rest maj min pat : List Char)
    (h : VersionAhead rest maj min pat) : matchVersionTail rest = some (maj, min, pat) := by
  obtain ⟨hM, hm, post, hpost, hcase⟩ := h
  have hdot : ∀ (tl : List Char) (c : Char), ('.' :: tl).head? = some c → isDigitChar c = false := by
    intro tl c hc
    simp only [List.head?_cons, Option.some.injEq] at hc
    subst hc
    decide
  rcases hcase with ⟨hP, hrest⟩ | ⟨hp0, hrest, hno⟩
  · obtain ⟨t1, k1⟩ := span_digits_unique maj ('.' :: (min ++ '.' :: (pat ++ post))) hM.2 (hdot _)
    obtain ⟨t3, k3⟩ := span_digits_unique min ('.' :: (pat ++ post)) hm.2 (hdot _)
    obtain ⟨t5, k5⟩ := span_digits_unique pat post hP.2 (noWordAhead_not_digit _ hpost)
    rw [← hrest] at t1 k1
    simp only [matchVersionTail, t1, k1, hM.1, if_false, t3, k3, hm.1, t5, k5]
    rw [if_pos ⟨hP.1, (boundary_after_number _ _ hP).2 hpost⟩]
  · subst hp0
    obtain ⟨t1, k1⟩ := span_digits_unique maj ('.' :: (min ++ post)) hM.2 (hdot _)
    obtain ⟨t3, k3⟩ := span_digits_unique min post hm.2 (noWordAhead_not_digit _ hpost)
    rw [← hrest] at t1 k1
    simp only [matchVersionTail, t1, k1, hM.1, if_false, t3, k3, hm.1]
    cases post with
    | nil => simp only []; rw [if_pos ((boundary_after_number _ _ hm).2 hpost)]
    | cons c tl =>
      by_cases hc : c = '.'
      · subst hc
        simp only []
        obtain ⟨e5, d5, _⟩ := span_digits tl
        have hneg : ¬ (tl.takeWhile isDigitChar ≠ [] ∧
            wordBoundary (tl.takeWhile isDigitChar).getLast? (tl.dropWhile isDigitChar).head? = true) := by
          rintro ⟨hp1, hp2⟩
          have hP : IsNumber (tl.takeWhile isDigitChar) := ⟨hp1, d5⟩
          exact hno ⟨_, _, hP, (boundary_after_number _ _ hP).1 hp2, by rw [← e5]⟩
        rw [if_neg hneg, if_pos]
        exact (boundary_after_number min ('.' :: tl) hm).2 hpost
      · split
        · rename_i r5 heq
          simp only [List.cons.injEq] at heq
          exact absurd heq.1 hc
        · rw [if_pos ((boundary_after_number _ _ hm).2 hpost)]

/-- Before the letter `g` there is a word boundary exactly when no word character precedes. -/
theorem boundary_before_g (seen rest : List Char) :
    wordBoundary seen.getLast? ('g' :: rest).head? = true ↔ NoWordBehind seen := by
  unfold wordBoundary NoWordBehind
  have hg : isWordChar 'g' = true := by decide
  cases hr : seen.getLast? with
  | none => simp [hg]
  | some c => cases hc : isWordChar c <;> simp [hg, hc]

/-- The matcher of `goVersionRegex` at one place succeeds exactly on a delimited version. -/
theorem matchGoVersionAt_iff (seen rest maj min pat : List Char) :
    matchGoVersionAt seen.getLast? rest = some (maj, min, pat) ↔ GoVersionAt seen rest maj min pat := by
  constructor
  · intro h
    unfold matchGoVersionAt at h
    by_cases hb : wordBoundary seen.getLast? rest.head? = true
    · rw [if_pos hb] at h
      split at h
      · rename_i r1
        exact ⟨(boundary_before_g seen _).1 hb, r1, rfl, matchVersionTail_sound _ _ _ _ h⟩
      · exact Option.noConfusion h
    · rw [if_neg hb] at h
      exact Option.noConfusion h
  · rintro ⟨hs, r1, rfl, hv⟩
    unfold matchGoVersionAt
    rw [if_pos ((boundary_before_g seen _).2 hs)]
    exact matchVersionTail_complete _ _ _ _ hv

/-- The scan for `goVersionRegex` returns the delimited version that starts leftmost. -/
theorem findGoVersionFrom_iff (rest : List Char) :
    ∀ (seen : List Char) (m : List Char × List Char × List Char),
      findGoVersionFrom seen.getLast? rest = some m ↔
        ∃ pre tail, rest = pre ++ tail ∧ GoVersionAt (seen ++ pre) tail m.1 m.2.1 m.2.2 ∧
          ∀ pre2 tail2 a b c, rest = pre2 ++ tail2 → GoVersionAt (seen ++ pre2) tail2 a b c →
            pre.length ≤ pre2.length := by
  induction rest with
  | nil =>
    intro seen m
    constructor
    · intro h
      simp [findGoVersionFrom, matchGoVersionAt] at h
    · rintro ⟨pre, tail, he, ⟨_, r1, ht, _⟩, _⟩
      subst ht
      simp at he
  | cons c cs ih =>
    intro seen m
    obtain ⟨m1, m2, m3⟩ := m
    cases hm : matchGoVersionAt seen.getLast? (c :: cs) with
    | some m0 =>
      obtain ⟨a0, b0, c0⟩ := m0
      have hat := (matchGoVersionAt_iff seen (c :: cs) a0 b0 c0).1 hm
      simp only [findGoVersionFrom, hm]
      constructor
      · intro h
        simp only [Option.some.injEq, Prod.mk.injEq] at h
        obtain ⟨rfl, rfl, rfl⟩ := h
        refine ⟨[], c :: cs, rfl, by simpa using hat, ?_⟩
        intro pre2 _ _ _ _ _ _
        simp
      · rintro ⟨pre, tail, he, hg, hleft⟩
        have h0 := hleft [] (c :: cs) a0 b0 c0 rfl (by simpa using hat)
        have hpre : pre = [] := List.length_eq_zero.mp (Nat.le_zero.mp h0)
        subst hpre
        simp only [List.nil_append] at he
        subst he
        simp only [List.append_nil] at hg
        have := (matchGoVersionAt_iff seen (c :: cs) m1 m2 m3).2 hg
        rw [hm] at this
        exact this
    | none =>
      have hnot : ∀ a b d, ¬ GoVersionAt seen (c :: cs) a b d := by
        intro a b d hg
        have := (matchGoVersionAt_iff seen (c :: cs) a b d).2 hg
        rw [hm] at this
        exact Option.noConfusion this
      have hlast : (seen ++ [c]).getLast? = some c := by simp
      simp only [findGoVersionFrom, hm]
      rw [← hlast, ih (seen ++ [c]) (m1, m2, m3)]
      constructor
      · rintro ⟨pre, tail, he, hg, hleft⟩
        refine ⟨c :: pre, tail, by rw [he]; rfl, by simpa using hg, ?_⟩
        intro pre2 tail2 a b d he2 hg2
        cases pre2 with
        | nil =>
          simp only [List.nil_append] at he2
          subst he2
          exact absurd (by simpa using hg2) (hnot a b d)
        | cons x xs =>
          simp only [List.cons_append, List.cons.injEq] at he2
          obtain ⟨rfl, he2⟩ := he2
          have := hleft xs tail2 a b d he2 (by simpa using hg2)
          simpa using this
      · rintro ⟨pre, tail, he, hg, hleft⟩
        cases pre with
        | nil =>
          simp only [List.nil_append] at he
          subst he
          exact absurd (by simpa using hg) (hnot _ _ _)
        | cons x xs =>
          simp only [List.cons_append, List.cons.injEq] at he
          obtain ⟨rfl, he⟩ := he
          refine ⟨xs, tail, he, by simpa using hg, ?_⟩
          intro pre2 tail2 a b d he2 hg2
          have := hleft (c :: pre2) tail2 a b d (by rw [he2]; rfl) (by simpa using hg2)
          simpa using this

/-- `FindSubmatch` returns the leftmost delimited version of the text. -/
theorem goVersionRegexFindSubmatch_iff (text : String) (maj min pat : List Char) :
    goVersionRegexFindSubmatch text = some (maj, min, pat) ↔
      LeftmostGoVersion text.toList maj min pat := by
  have h := findGoVersionFrom_iff text.toList [] (maj, min, pat)
  simpa [goVersionRegexFindSubmatch, LeftmostGoVersion] using h

/-- On a number `strconv.Atoi` fails exactly when the value does not fit a Go `int`. -/
theorem strconvAtoi_number (ds : List Char) (h : IsNumber ds) :
    ((strconvAtoi ds).2 = none ↔ digitsValue ds ≤ maxInt) ∧
    (digitsValue ds ≤ maxInt → (strconvAtoi ds).1 = (digitsValue ds : Int)) := by
  have hsyn : ¬ (ds = [] ∨ ¬ ds.all isDigitChar = true) := by
    rintro (h0 | h1)
    · exact h.1 h0
    · exact h1 (List.all_eq_true.mpr h.2)
  unfold strconvAtoi
  rw [if_neg hsyn]
  by_cases hr : digitsValue ds ≤ maxInt
  · simp [hr]
  · simp [hr]

/-- The parts of a delimited version are numbers, the patch possibly absent. -/
theorem versionAhead_numbers (rest maj min pat : List Char) (h : VersionAhead rest maj min pat) :
    IsNumber maj ∧ IsNumber min ∧ (pat = [] ∨ IsNumber pat) := by
  obtain ⟨hM, hm, post, _, hc⟩ := h
  rcases hc with ⟨hP, _⟩ | ⟨hp, _⟩
  · exact ⟨hM, hm, Or.inr hP⟩
  · exact ⟨hM, hm, Or.inl hp⟩

/-- A text with a delimited version contains `go<major>.<minor>`. -/
theorem leftmost_has (text maj min pat : List Char) (h : LeftmostGoVersion text maj min pat) :
    HasGoVersion text := by
  obtain ⟨pre, tail, he, ⟨_, r1, ht, hM, hm, post, _, hc⟩, _⟩ := h
  rcases hc with ⟨_, hr⟩ | ⟨_, hr, _⟩
  · exact ⟨pre, maj, min, '.' :: (pat ++ post), hM, hm, by rw [he, ht, hr]⟩
  · exact ⟨pre, maj, min, post, hM, hm, by rw [he, ht, hr]⟩

/-- The version-parsing step succeeds exactly on the leftmost delimited version, when its
numbers fit a Go `int`. -/
theorem parseGoVersion_ok_iff (desc text : String) (v : Version) :
    parseGoVersion desc text = (v, none) ↔
      ∃ maj min pat, LeftmostGoVersion text.toList maj min pat ∧
        digitsValue maj ≤ maxInt ∧ digitsValue min ≤ maxInt ∧ digitsValue pat ≤ maxInt ∧
        v = { Text := text, Major := (digitsValue maj : Int), Minor := (digitsValue min : Int),
              Patch := (digitsValue pat : Int) } := by
  cases hf : goVersionRegexFindSubmatch text with
  | none =>
    constructor
    · intro h
      simp [parseGoVersion, hf] at h
    · rintro ⟨maj, min, pat, hl, _⟩
      rw [(goVersionRegexFindSubmatch_iff text maj min pat).2 hl] at hf
      exact Option.noConfusion hf
  | some m =>
    obtain ⟨m1, m2, m3⟩ := m
    have hl := (goVersionRegexFindSubmatch_iff text m1 m2 m3).1 hf
    obtain ⟨pre, tail, _, ⟨_, r1, _, hva⟩, _⟩ := id hl
    obtain ⟨hM, hm, hP⟩ := versionAhead_numbers _ _ _ _ hva
    obtain ⟨a1, b1⟩ := strconvAtoi_number m1 hM
    obtain ⟨a2, b2⟩ := strconvAtoi_number m2 hm
    have key : parseGoVersion desc text = (v, none) ↔
        (digitsValue m1 ≤ maxInt ∧ digitsValue m2 ≤ maxInt ∧ digitsValue m3 ≤ maxInt ∧
        v = { Text := text, Major := (digitsValue m1 : Int), Minor := (digitsValue m2 : Int),
              Patch := (digitsValue m3 : Int) }) := by
      simp only [parseGoVersion, hf]
      by_cases h1 : digitsValue m1 ≤ maxInt
      · by_cases h2 : digitsValue m2 ≤ maxInt
        · have e1 : (strconvAtoi m1).2 = none := a1.2 h1
          have e2 : (strconvAtoi m2).2 = none := a2.2 h2
          rcases hP with hp0 | hP
          · subst hp0
            have hz : digitsValue ([] : List Char) = 0 := rfl
            simp [e1, e2, b1 h1, b2 h2, h1, h2, hz, eq_comm]
          · obtain ⟨a3, b3⟩ := strconvAtoi_number m3 hP
            have hlen : m3.length > 0 := List.length_pos.mpr hP.1
            by_cases h3 : digitsValue m3 ≤ maxInt
            · have e3 : (strconvAtoi m3).2 = none := a3.2 h3
              simp [e1, e2, e3, b1 h1, b2 h2, b3 h3, h1, h2, h3, hlen, eq_comm]
            · have e3 : (strconvAtoi m3).2 ≠ none := fun h => h3 (a3.1 h)
              simp [e1, e2, e3, h3, hlen]
        · have e1 : (strconvAtoi m1).2 = none := a1.2 h1
          have e2 : (strconvAtoi m2).2 ≠ none := fun h => h2 (a2.1 h)
          simp [e1, e2, h2]
      · have e1 : (strconvAtoi m1).2 ≠ none := fun h => h1 (a1.1 h)
        simp [e1, h1]
    rw [key]
    constructor
    · rintro ⟨h1, h2, h3, hv⟩
      exact ⟨m1, m2, m3, hl, h1, h2, h3, hv⟩
    · rintro ⟨maj, min, pat, hl2, h1, h2, h3, hv⟩
      have := (goVersionRegexFindSubmatch_iff text maj min pat).2 hl2
      rw [hf] at this
      simp only [Option.some.injEq, Prod.mk.injEq] at this
      obtain ⟨rfl, rfl, rfl⟩ := this
      exact ⟨h1, h2, h3, hv⟩

/-- The only error of the version-parsing step is `errUnsupportedVersion`. -/
theorem parseGoVersion_error (desc text : String) :
    (parseGoVersion desc text).2 = none ∨
      (parseGoVersion desc text).2 = some (goErrUnsupportedVersion desc) := by
  simp only [parseGoVersion]
  split
  · right; rfl
  · split_ifs <;> simp

/-- C4 as stated fails: the output of a release candidate of the build tool,
`go version go1.22rc1 darwin/arm64`, contains the occurrence `go1.22` of
`go<major>.<minor>`, and so does a text whose minor number does not fit a Go `int`; the
version-parsing step yields no triple for either but fails with the unsupported-version
error, because the pattern asks for a word boundary after the last number and
`strconv.Atoi` rejects the value. -/
theorem go_version_occurrence_rejected :
    (HasGoVersion "go version go1.22rc1 darwin/arm64\n".toList ∧
      (parseGoVersion "Go tool \"go\"" "go version go1.22rc1 darwin/arm64\n").2
        = some (goErrUnsupportedVersion "Go tool \"go\"")) ∧
    (HasGoVersion "go version go1.99999999999999999999 darwin/arm64\n".toList ∧
      (parseGoVersion "Go tool \"go\"" "go version go1.99999999999999999999 darwin/arm64\n").2
        = some (goErrUnsupportedVersion "Go tool \"go\"")) := by
  refine ⟨⟨⟨"go version ".toList, ['1'], ['2', '2'], "rc1 darwin/arm64\n".toList,
      ⟨by decide, by decide⟩, ⟨by decide, by decide⟩, by decide⟩, by decide⟩,
    ⟨⟨"go version ".toList, ['1'], "99999999999999999999".toList, " darwin/arm64\n".toList,
      ⟨by decide, by decide⟩, ⟨by decide, by decide⟩, by decide⟩, by decide⟩⟩

/-- C4, amended: for every text reported by the version subcommand, the version-parsing
step of `LocateGoTool` succeeds exactly when the text has a word-delimited occurrence
`go<major>.<minor>[.<patch>]` (no word character before `go` and none after the last
number, the patch being read whenever it can be delimited) and the numbers of the leftmost
such occurrence fit a Go `int`; it then yields the triple of that leftmost occurrence, with
patch 0 when the patch is absent (`go1.22.3` gives (1,22,3), `go1.22` gives (1,22,0)). In
every other case the step fails, always with the unsupported-version error; in particular it
fails for every text that contains no `go<major>.<minor>` occurrence. -/
theorem go_version_parsing (desc text : String) :
    (∀ v, parseGoVersion desc text = (v, none) ↔
      ∃ maj min pat, LeftmostGoVersion text.toList maj min pat ∧
        digitsValue maj ≤ maxInt ∧ digitsValue min ≤ maxInt ∧ digitsValue pat ≤ maxInt ∧
        v = { Text := text, Major := (digitsValue maj : Int), Minor := (digitsValue min : Int),
              Patch := (digitsValue pat : Int) }) ∧
    ((parseGoVersion desc text).2 = none ∨
      (parseGoVersion desc text).2 = some (goErrUnsupportedVersion desc)) ∧
    (¬ HasGoVersion text.toList →
      (parseGoVersion desc text).2 = some (goErrUnsupportedVersion desc)) ∧
    parseGoVersion desc "go1.22.3" = ({ Text := "go1.22.3", Major := 1, Minor := 22, Patch := 3 }, none) ∧
    parseGoVersion desc "go1.22" = ({ Text := "go1.22", Major := 1, Minor := 22, Patch := 0 }, none) := by
  refine ⟨fun v => parseGoVersion_ok_iff desc text v, parseGoVersion_error desc text, ?_, ?_, ?_⟩
  · intro hno
    rcases parseGoVersion_error desc text with h | h
    · exfalso
      obtain ⟨maj, min, pat, hl, _⟩ :=
        (parseGoVersion_ok_iff desc text (parseGoVersion desc text).1).1 (Prod.ext rfl h)
      exact hno (leftmost_has _ _ _ _ hl)
    · exact h
  · rfl
  · rfl

/-- C4, amended, at a concrete input: the output `go version go1.22.3 darwin/arm64` parses to
(1,22,3), so it has a leftmost word-delimited occurrence with these numbers. -/
theorem go_version_parsing_witness :
    ∃ maj min pat, LeftmostGoVersion "go version go1.22.3 darwin/arm64\n".toList maj min pat ∧
      digitsValue maj ≤ maxInt ∧ digitsValue min ≤ maxInt ∧ digitsValue pat ≤ maxInt ∧
      ({ Text := "go version go1.22.3 darwin/arm64\n", Major := 1, Minor := 22, Patch := 3 } : Version)
        = { Text := "go version go1.22.3 darwin/arm64\n", Major := (digitsValue maj : Int),
            Minor := (digitsValue min : Int), Patch := (digitsValue pat : Int) } :=
  ((go_version_parsing "Go tool \"go\"" "go version go1.22.3 darwin/arm64\n").1
    { Text := "go version go1.22.3 darwin/arm64\n", Major := 1, Minor := 22, Patch := 3 }).1
    (by decide)

/-- The lookup of the binary changes nothing but the path. -/
theorem Locate_keeps (w : World) (tool : Tool) (s : Sys) :
    (tool.Locate w s).1.1.Desc = tool.Desc ∧ (tool.Locate w s).1.1.Hint = tool.Hint ∧
    (tool.Locate w s).1.1.Args = tool.Args := by
  simp only [Tool.Locate]
  split_ifs <;> (try split) <;> simp

/-- Recording an effect leaves the environment alone. -/
theorem record_env (s : Sys) (e : Event) : (s.record e).env = s.env := rfl

/-- The lookup of the binary and the `xcrun` probe leave the environment alone. -/
theorem lookup_env (w : World) (tool : Tool) (name : String) (s : Sys) :
    (tool.Locate w s).2.env = s.env ∧ (queryXCrun w name s).2.env = s.env := by
  constructor
  · simp only [Tool.Locate, execLookPath]
    split_ifs <;> (try split) <;> simp [record_env]
  · simp only [queryXCrun, Cmd.Output, execLookPath]
    split_ifs <;> simp [record_env]

/-- The second half of `LocateGoTool` keeps the hint and the fixed arguments. -/
theorem LocateGoTool_query_keeps (w : World) (tool : GoTool) (s : Sys) :
    (LocateGoTool.query w tool s).1.1.toTool.Hint = tool.toTool.Hint ∧
    (LocateGoTool.query w tool s).1.1.toTool.Args = tool.toTool.Args := by
  unfold LocateGoTool.query
  simp only []
  split_ifs <;> (try split) <;> simp [Locate_keeps]

/-- The override step of `LocateGoTool` on an override that splits into at least one token. -/
theorem LocateGoTool_cascade_tokens (w : World) (s : Sys) (t : String) (ts : List String)
    (hne : osGetenv s GoOverrideKey ≠ "")
    (hsplit : w.quotedSplit (osGetenv s GoOverrideKey) = (t :: ts, none)) :
    (LocateGoTool.cascade w s).1.2 = none ∧ (LocateGoTool.cascade w s).1.1.toTool.Hint = t ∧
    (LocateGoTool.cascade w s).1.1.toTool.Args = ts ∧ (LocateGoTool.cascade w s).2 = s := by
  simp [LocateGoTool.cascade, hne, hsplit]

/-- The override step of `LocateCCompiler` on an override that splits into at least one
token. -/
theorem LocateCCompiler_cascade_tokens (w : World) (s : Sys) (t : String) (ts : List String)
    (hne : osGetenv s CCOverrideKey ≠ "")
    (hsplit : w.quotedSplit (osGetenv s CCOverrideKey) = (t :: ts, none)) :
    (LocateCCompiler.cascade w s).1.2 = none ∧ (LocateCCompiler.cascade w s).1.1.toTool.Hint = t ∧
    (LocateCCompiler.cascade w s).1.1.toTool.Args = ts ∧ (LocateCCompiler.cascade w s).2 = s := by
  simp [LocateCCompiler.cascade, hne, hsplit]

/-- The override step of `LocateSwiftCompiler` on an override that splits into at least one
token. -/
theorem LocateSwiftCompiler_cascade_tokens (w : World) (tool : SwiftCompiler) (s : Sys)
    (t : String) (ts : List String)
    (hne : osGetenv s SwiftcOverrideKey ≠ "")
    (hsplit : w.quotedSplit (osGetenv s SwiftcOverrideKey) = (t :: ts, none)) :
    (LocateSwiftCompiler.cascade w tool s).1.2 = none ∧
    (LocateSwiftCompiler.cascade w tool s).1.1.toTool.Hint = t ∧
    (LocateSwiftCompiler.cascade w tool s).1.1.toTool.Args = ts ∧
    (LocateSwiftCompiler.cascade w tool s).2 = s := by
  simp [LocateSwiftCompiler.cascade, hne, hsplit]

/-- The lookup and the probe of `LocateCCompiler` keep the hint and the fixed arguments. -/
theorem LocateCCompiler_rest_keeps (w : World) (tool : CCompiler) (s : Sys) :
    (LocateCCompiler.locate w tool s).1.1.toTool.Hint = tool.toTool.Hint ∧
    (LocateCCompiler.locate w tool s).1.1.toTool.Args = tool.toTool.Args ∧
    (LocateCCompiler.probe w tool s).1.1.toTool = tool.toTool := by
  refine ⟨?_, ?_, ?_⟩
  · simp only [LocateCCompiler.locate]; split_ifs <;> simp [Locate_keeps]
  · simp only [LocateCCompiler.locate]; split_ifs <;> simp [Locate_keeps]
  · simp only [LocateCCompiler.probe]; split_ifs <;> simp

/-- The query part of `LocateSwiftCompiler` leaves the tool's base fields alone. -/
theorem LocateSwiftCompiler_query_toTool (w : World) (tool : SwiftCompiler) (s : Sys) :
    (LocateSwiftCompiler.query w tool s).1.1.toTool = tool.toTool := by
  simp only [LocateSwiftCompiler.query, LocateSwiftCompiler.derive]
  split_ifs <;> (try split) <;> (try split_ifs) <;> simp

/-- The lookup part of `LocateSwiftCompiler` keeps the hint; it leaves the fixed arguments
alone when the lookup fails and appends the user flags and the caller's flags to them
otherwise. -/
theorem LocateSwiftCompiler_locate_args (w : World) (u f : List String) (tool : SwiftCompiler)
    (s : Sys) :
    (LocateSwiftCompiler.locate w u f tool s).1.1.toTool.Hint = tool.toTool.Hint ∧
    ((LocateSwiftCompiler.locate w u f tool s).1.1.toTool.Args = tool.toTool.Args ∨
      (LocateSwiftCompiler.locate w u f tool s).1.1.toTool.Args = tool.toTool.Args ++ u ++ f) ∧
    ((LocateSwiftCompiler.locate w u f tool s).1.2 = none →
      (LocateSwiftCompiler.locate w u f tool s).1.1.toTool.Args = tool.toTool.Args ++ u ++ f) ∧
    (LocateSwiftCompiler.locate w u f tool s).1.1.LinkerFlags = tool.LinkerFlags ∧
    (LocateSwiftCompiler.locate w u f tool s).2.env = s.env := by
  simp only [LocateSwiftCompiler.locate]
  split_ifs <;> simp_all [Locate_keeps, (lookup_env w _ "" s).1]

/-- When the flags variable is well-formed and the cascade succeeds, the base fields of
the tool that `LocateSwiftCompiler` returns are those that its lookup part returns. -/
theorem LocateSwiftCompiler_toTool (w : World) (flags : List String) (s : Sys)
    (hu : (w.quotedSplit (osGetenv s SwiftcFlagsKey)).2 = none)
    (hc : (LocateSwiftCompiler.cascade w LocateSwiftCompiler.initial s).1.2 = none) :
    (LocateSwiftCompiler w flags s).1.1.toTool =
      (LocateSwiftCompiler.locate w (w.quotedSplit (osGetenv s SwiftcFlagsKey)).1 flags
        (LocateSwiftCompiler.cascade w LocateSwiftCompiler.initial s).1.1
        (LocateSwiftCompiler.cascade w LocateSwiftCompiler.initial s).2).1.1.toTool := by
  simp only [LocateSwiftCompiler, hu, hc]
  split_ifs
  · simp_all
  · rfl
  · rw [LocateSwiftCompiler_query_toTool]

/-- C5: for every override string that is split into tokens `t :: ts`, `LocateGoTool` and
`LocateCCompiler` return a tool whose hint is `t` and whose fixed arguments are `ts`, so
that every command built on it has the arguments `ts` followed by the call's own; the
override step of `LocateSwiftCompiler` does the same, and the tool it finally returns has
hint `t` and fixed arguments that start with `ts`. -/
theorem override_sets_hint_and_arguments (w : World) (s : Sys) (flags : List String)
    (override t : String) (ts : List String)
    (hne : override ≠ "") (hsplit : w.quotedSplit override = (t :: ts, none)) :
    (osGetenv s GoOverrideKey = override →
      (LocateGoTool w s).1.1.toTool.Hint = t ∧ (LocateGoTool w s).1.1.toTool.Args = ts ∧
      ∀ mode extra, ((LocateGoTool w s).1.1.toTool.Command mode extra).Args =
        (LocateGoTool w s).1.1.toTool.Path :: (ts ++ extra)) ∧
    (osGetenv s CCOverrideKey = override →
      (LocateCCompiler w s).1.1.toTool.Hint = t ∧ (LocateCCompiler w s).1.1.toTool.Args = ts ∧
      ∀ mode extra, ((LocateCCompiler w s).1.1.toTool.Command mode extra).Args =
        (LocateCCompiler w s).1.1.toTool.Path :: (ts ++ extra)) ∧
    (osGetenv s SwiftcOverrideKey = override →
      (∀ tool0 : SwiftCompiler,
        (LocateSwiftCompiler.cascade w tool0 s).1.1.toTool.Hint = t ∧
        (LocateSwiftCompiler.cascade w tool0 s).1.1.toTool.Args = ts ∧
        ∀ mode extra, ((LocateSwiftCompiler.cascade w tool0 s).1.1.toTool.Command mode extra).Args =
          (LocateSwiftCompiler.cascade w tool0 s).1.1.toTool.Path :: (ts ++ extra)) ∧
      ((w.quotedSplit (osGetenv s SwiftcFlagsKey)).2 = none →
        (LocateSwiftCompiler w flags s).1.1.toTool.Hint = t ∧
        ∃ more, (LocateSwiftCompiler w flags s).1.1.toTool.Args = ts ++ more)) := by
  refine ⟨?_, ?_, ?_⟩
  · intro hget
    subst hget
    obtain ⟨he, hh, ha, hs⟩ := LocateGoTool_cascade_tokens w s t ts hne hsplit
    have hH : (LocateGoTool w s).1.1.toTool.Hint = t := by
      simp only [LocateGoTool, he]; simp [(LocateGoTool_query_keeps w _ _).1, hh]
    have hA : (LocateGoTool w s).1.1.toTool.Args = ts := by
      simp only [LocateGoTool, he]; simp [(LocateGoTool_query_keeps w _ _).2, ha]
    refine ⟨hH, hA, fun mode extra => ?_⟩
    rw [(Command_shape _ mode extra).2, hA]
  · intro hget
    subst hget
    obtain ⟨he, hh, ha, hs⟩ := LocateCCompiler_cascade_tokens w s t ts hne hsplit
    have hT : (LocateCCompiler w s).1.1.toTool.Hint = t ∧ (LocateCCompiler w s).1.1.toTool.Args = ts := by
      simp only [LocateCCompiler, he]
      split_ifs <;>
        simp [(LocateCCompiler_rest_keeps w _ _).1, (LocateCCompiler_rest_keeps w _ _).2.1,
          (LocateCCompiler_rest_keeps w _ _).2.2, hh, ha]
    refine ⟨hT.1, hT.2, fun mode extra => ?_⟩
    rw [(Command_shape _ mode extra).2, hT.2]
  · intro hget
    subst hget
    refine ⟨fun tool0 => ?_, fun hu => ?_⟩
    · obtain ⟨he, hh, ha, hs⟩ := LocateSwiftCompiler_cascade_tokens w tool0 s t ts hne hsplit
      refine ⟨hh, ha, fun mode extra => ?_⟩
      rw [(Command_shape _ mode extra).2, ha]
    · obtain ⟨he, hh, ha, hs⟩ :=
        LocateSwiftCompiler_cascade_tokens w LocateSwiftCompiler.initial s t ts hne hsplit
      obtain ⟨qh, qa, _⟩ := LocateSwiftCompiler_locate_args w
        (w.quotedSplit (osGetenv s SwiftcFlagsKey)).1 flags
        (LocateSwiftCompiler.cascade w LocateSwiftCompiler.initial s).1.1
        (LocateSwiftCompiler.cascade w LocateSwiftCompiler.initial s).2
      rw [LocateSwiftCompiler_toTool w flags s hu he, qh, hh]
      refine ⟨rfl, ?_⟩
      rcases qa with qa | qa
      · exact ⟨[], by rw [qa, ha]; simp⟩
      · exact ⟨(w.quotedSplit (osGetenv s SwiftcFlagsKey)).1 ++ flags, by rw [qa, ha]; simp⟩

/-- C5 at a concrete input: with `SWIFTGO_GOTOOL` set to `go -C "my dir"` in the example
world, the located Go tool has hint `go` and fixed arguments `-C`, `my dir`. -/
theorem override_sets_hint_and_arguments_witness :
    "go -C \"my dir\"" ≠ "" ∧
    exampleWorld.quotedSplit "go -C \"my dir\"" = ("go" :: ["-C", "my dir"], none) ∧
    osGetenv ⟨[("SWIFTGO_GOTOOL", "go -C \"my dir\"")], []⟩ GoOverrideKey = "go -C \"my dir\"" ∧
    (LocateGoTool exampleWorld ⟨[("SWIFTGO_GOTOOL", "go -C \"my dir\"")], []⟩).1.1.toTool.Hint = "go" ∧
    (LocateGoTool exampleWorld ⟨[("SWIFTGO_GOTOOL", "go -C \"my dir\"")], []⟩).1.1.toTool.Args
      = ["-C", "my dir"] :=
  ⟨by decide, by decide, by decide,
   ((override_sets_hint_and_arguments exampleWorld ⟨[("SWIFTGO_GOTOOL", "go -C \"my dir\"")], []⟩ []
      "go -C \"my dir\"" "go" ["-C", "my dir"] (by decide) (by decide)).1 (by decide)).1,
   ((override_sets_hint_and_arguments exampleWorld ⟨[("SWIFTGO_GOTOOL", "go -C \"my dir\"")], []⟩ []
      "go -C \"my dir\"" "go" ["-C", "my dir"] (by decide) (by decide)).1 (by decide)).2.1⟩

/-- The override step of each locator on a non-empty override that is malformed or has
no token: the error, and nothing done. -/
theorem cascade_rejects (w : World) (s : Sys) (tool0 : SwiftCompiler) :
    (osGetenv s GoOverrideKey ≠ "" →
      ((w.quotedSplit (osGetenv s GoOverrideKey)).2 ≠ none ∨
        (w.quotedSplit (osGetenv s GoOverrideKey)).1 = []) →
      (LocateGoTool.cascade w s).1.2 = some (fmtErrorfW
        (GoOverrideKey ++ " environment variable could not be parsed: ")
        (w.quotedSplit (osGetenv s GoOverrideKey)).2) ∧
      (LocateGoTool.cascade w s).2 = s ∧ (LocateGoTool.cascade w s).1.1.toTool.Path = "" ∧
      (LocateGoTool.cascade w s).1.1.toTool.Hint = "go") ∧
    (osGetenv s CCOverrideKey ≠ "" →
      ((w.quotedSplit (osGetenv s CCOverrideKey)).2 ≠ none ∨
        (w.quotedSplit (osGetenv s CCOverrideKey)).1 = []) →
      (LocateCCompiler.cascade w s).1.2 = some (fmtErrorfW
        (CCOverrideKey ++ " environment variable could not be parsed: ")
        (w.quotedSplit (osGetenv s CCOverrideKey)).2) ∧
      (LocateCCompiler.cascade w s).2 = s ∧ (LocateCCompiler.cascade w s).1.1.toTool.Path = "" ∧
      (LocateCCompiler.cascade w s).1.1.toTool.Hint = "clang") ∧
    (osGetenv s SwiftcOverrideKey ≠ "" →
      ((w.quotedSplit (osGetenv s SwiftcOverrideKey)).2 ≠ none ∨
        (w.quotedSplit (osGetenv s SwiftcOverrideKey)).1 = []) →
      (LocateSwiftCompiler.cascade w tool0 s).1.2 = some (fmtErrorfW
        (SwiftcOverrideKey ++ " environment variable could not be parsed: ")
        (w.quotedSplit (osGetenv s SwiftcOverrideKey)).2) ∧
      (LocateSwiftCompiler.cascade w tool0 s).2 = s ∧
      (LocateSwiftCompiler.cascade w tool0 s).1.1.toTool.Path = tool0.toTool.Path ∧
      (LocateSwiftCompiler.cascade w tool0 s).1.1.toTool.Hint = tool0.toTool.Hint) := by
  refine ⟨?_, ?_, ?_⟩
  · intro hne hbad
    simp only [LocateGoTool.cascade, hne, ne_eq, not_false_eq_true, if_true]
    rcases hsp : w.quotedSplit (osGetenv s GoOverrideKey) with ⟨args, err⟩
    rw [hsp] at hbad
    cases err <;> cases args <;> simp_all
  · intro hne hbad
    simp only [LocateCCompiler.cascade, hne, ne_eq, not_false_eq_true, if_true]
    rcases hsp : w.quotedSplit (osGetenv s CCOverrideKey) with ⟨args, err⟩
    rw [hsp] at hbad
    cases err <;> cases args <;> simp_all
  · intro hne hbad
    simp only [LocateSwiftCompiler.cascade, hne, ne_eq, not_false_eq_true, if_true]
    rcases hsp : w.quotedSplit (osGetenv s SwiftcOverrideKey) with ⟨args, err⟩
    rw [hsp] at hbad
    cases err <;> cases args <;> simp_all

/-- C6 as stated fails: with `SWIFTGO_GOTOOL` set to the empty string, `LocateGoTool` does
not fail but falls through to the conventional fallback (it looks `go` up on the search
path and succeeds); with `__SWIFTGO_PRIVATE_CC` set to the empty string, `LocateCCompiler`
falls through to the `xcrun` probe and succeeds. -/
theorem empty_override_falls_through :
    (osLookupEnv ⟨[("SWIFTGO_GOTOOL", "")], []⟩ GoOverrideKey = some "" ∧
      (LocateGoTool exampleWorld ⟨[("SWIFTGO_GOTOOL", "")], []⟩).1.2 = none ∧
      Event.lookPath "go" ∈ (LocateGoTool exampleWorld ⟨[("SWIFTGO_GOTOOL", "")], []⟩).2.log) ∧
    (osLookupEnv ⟨[("__SWIFTGO_PRIVATE_CC", "")], []⟩ CCOverrideKey = some "" ∧
      (LocateCCompiler exampleWorld ⟨[("__SWIFTGO_PRIVATE_CC", "")], []⟩).1.2 = none ∧
      Event.start (execCommand "xcrun" ["-f", "clang"]) [("__SWIFTGO_PRIVATE_CC", "")] ∈
        (LocateCCompiler exampleWorld ⟨[("__SWIFTGO_PRIVATE_CC", "")], []⟩).2.log) := by
  decide

/-- C6, amended: when the override variable of a tool kind holds a non-empty value that
is malformed or splits into no token, the locate function fails with the error
`<variable> environment variable could not be parsed`, and it has then performed no lookup,
started no process and opened no file (the state is the initial one), and has resolved no
path. For the Swift compiler this is so when the flags variable itself is well-formed;
otherwise the locate fails on the flags variable, equally without any effect. -/
theorem malformed_override_is_config_error (w : World) (s : Sys) (flags : List String) :
    (osGetenv s GoOverrideKey ≠ "" →
      ((w.quotedSplit (osGetenv s GoOverrideKey)).2 ≠ none ∨
        (w.quotedSplit (osGetenv s GoOverrideKey)).1 = []) →
      (LocateGoTool w s).1.2 = some (fmtErrorfW
        (GoOverrideKey ++ " environment variable could not be parsed: ")
        (w.quotedSplit (osGetenv s GoOverrideKey)).2) ∧
      (LocateGoTool w s).2 = s ∧ (LocateGoTool w s).1.1.toTool.Path = "") ∧
    (osGetenv s CCOverrideKey ≠ "" →
      ((w.quotedSplit (osGetenv s CCOverrideKey)).2 ≠ none ∨
        (w.quotedSplit (osGetenv s CCOverrideKey)).1 = []) →
      (LocateCCompiler w s).1.2 = some (fmtErrorfW
        (CCOverrideKey ++ " environment variable could not be parsed: ")
        (w.quotedSplit (osGetenv s CCOverrideKey)).2) ∧
      (LocateCCompiler w s).2 = s ∧ (LocateCCompiler w s).1.1.toTool.Path = "") ∧
    (osGetenv s SwiftcOverrideKey ≠ "" →
      ((w.quotedSplit (osGetenv s SwiftcOverrideKey)).2 ≠ none ∨
        (w.quotedSplit (osGetenv s SwiftcOverrideKey)).1 = []) →
      (LocateSwiftCompiler w flags s).1.2 ≠ none ∧
      ((w.quotedSplit (osGetenv s SwiftcFlagsKey)).2 = none →
        (LocateSwiftCompiler w flags s).1.2 = some (fmtErrorfW
          (SwiftcOverrideKey ++ " environment variable could not be parsed: ")
          (w.quotedSplit (osGetenv s SwiftcOverrideKey)).2)) ∧
      (LocateSwiftCompiler w flags s).2 = s ∧ (LocateSwiftCompiler w flags s).1.1.toTool.Path = "") := by
  refine ⟨?_, ?_, ?_⟩
  · intro hne hbad
    obtain ⟨he, hs, hp, _⟩ := (cascade_rejects w s LocateSwiftCompiler.initial).1 hne hbad
    simp only [LocateGoTool, he]
    simp [he, hs, hp]
  · intro hne hbad
    obtain ⟨he, hs, hp, _⟩ := (cascade_rejects w s LocateSwiftCompiler.initial).2.1 hne hbad
    simp only [LocateCCompiler, he]
    simp [he, hs, hp]
  · intro hne hbad
    simp only [LocateSwiftCompiler]
    cases hu : (w.quotedSplit (osGetenv s SwiftcFlagsKey)).2 with
    | some e => simp [LocateSwiftCompiler.initial]
    | none =>
      obtain ⟨he, hs, hp, _⟩ := (cascade_rejects w s LocateSwiftCompiler.initial).2.2 hne hbad
      have hp2 : LocateSwiftCompiler.initial.toTool.Path = "" := rfl
      simp [he, hs, hp, hp2]

/-- C6, amended, at a concrete input: with `SWIFTGO_GOTOOL` set to a value with an open
quote, `LocateGoTool` fails with the parse error and has done nothing. -/
theorem malformed_override_is_config_error_witness :
    osGetenv ⟨[("SWIFTGO_GOTOOL", "\"go -x")], []⟩ GoOverrideKey ≠ "" ∧
    (exampleWorld.quotedSplit (osGetenv ⟨[("SWIFTGO_GOTOOL", "\"go -x")], []⟩ GoOverrideKey)).2 ≠ none ∧
    (LocateGoTool exampleWorld ⟨[("SWIFTGO_GOTOOL", "\"go -x")], []⟩).1.2 =
      some (.wrap "SWIFTGO_GOTOOL environment variable could not be parsed: unterminated quoted string"
        (.plain "unterminated quoted string")) ∧
    (LocateGoTool exampleWorld ⟨[("SWIFTGO_GOTOOL", "\"go -x")], []⟩).2 =
      ⟨[("SWIFTGO_GOTOOL", "\"go -x")], []⟩ :=
  ⟨by decide, by decide,
   ((malformed_override_is_config_error exampleWorld ⟨[("SWIFTGO_GOTOOL", "\"go -x")], []⟩ []).1
      (by decide) (Or.inl (by decide))).1.trans (by decide),
   ((malformed_override_is_config_error exampleWorld ⟨[("SWIFTGO_GOTOOL", "\"go -x")], []⟩ []).1
      (by decide) (Or.inl (by decide))).2.1⟩

/-- The path that the loop of `FindLibrary` returns: decided by the one check of `name`. -/
theorem FindLibrary_search_result (w : World) (sdk name : String) (paths : List String) (s : Sys) :
    (targetInfo.FindLibrary.search w sdk name paths s).1 =
      match paths with
      | [] => ""
      | searchPath :: _ => if w.stat name = true then w.pathJoin [searchPath, name] else "" := by
  have none_found : ∀ (ps : List String) (s : Sys), w.stat name = false →
      (targetInfo.FindLibrary.search w sdk name ps s).1 = "" := by
    intro ps
    induction ps with
    | nil => intro s _; simp [targetInfo.FindLibrary.search]
    | cons p ps ih =>
      intro s h
      simp only [targetInfo.FindLibrary.search, osStat, h]
      split_ifs <;> simp_all
  cases paths with
  | nil => simp [targetInfo.FindLibrary.search]
  | cons p ps =>
    cases h : w.stat name with
    | true => simp [targetInfo.FindLibrary.search, osStat, h]
    | false => simpa [h] using none_found (p :: ps) s h

/-- What `FindLibrary` returns and what it leaves of the receiver: the result does not
depend on the state nor on the SDK path. -/
theorem FindLibrary_result (w : World) (info : targetInfo) (name : String) (s : Sys) :
    (info.FindLibrary w name s).1.1 =
      (if w.isAbs name = true ∧ w.stat name = true then name
       else match info.RuntimeLibraryPaths with
        | [] => ""
        | searchPath :: _ =>
          if w.stat (name ++ ".a") = true then w.pathJoin [searchPath, name ++ ".a"] else "") ∧
    (info.FindLibrary w name s).1.2.RuntimeLibraryPaths = info.RuntimeLibraryPaths ∧
    (info.FindLibrary w name s).1.2.CompatibilityLibraries = info.CompatibilityLibraries ∧
    (info.FindLibrary w name s).1.2.LibrariesRequireRPath = info.LibrariesRequireRPath := by
  simp only [targetInfo.FindLibrary, osStat]
  split_ifs <;> simp_all [FindLibrary_search_result]

/-- The resolved archive is the same from every state and for every receiver with the same
runtime library paths. -/
theorem FindLibrary_eq_resolvedArchive (w : World) (info info2 : targetInfo) (name : String)
    (s : Sys) (h : info2.RuntimeLibraryPaths = info.RuntimeLibraryPaths) :
    (info2.FindLibrary w name s).1.1 = resolvedArchive w info name := by
  rw [resolvedArchive, (FindLibrary_result w info2 name s).1, (FindLibrary_result w info name _).1, h]

/-- The first loop of the flag derivation appends, for each library in order, the
force-load flag with its resolved archive or the link-by-name flag. -/
theorem libraryFlags_result (w : World) (info : targetInfo) (libs : List String) :
    ∀ (info2 : targetInfo) (flags : List String) (s : Sys),
      info2.RuntimeLibraryPaths = info.RuntimeLibraryPaths →
      info2.LibrariesRequireRPath = info.LibrariesRequireRPath →
      (LocateSwiftCompiler.libraryFlags w libs info2 flags s).1.1 =
        flags ++ libs.flatMap (fun lib =>
          if resolvedArchive w info lib ≠ "" then ["-force_load", resolvedArchive w info lib]
          else ["-l" ++ lib]) ∧
      (LocateSwiftCompiler.libraryFlags w libs info2 flags s).1.2.RuntimeLibraryPaths =
        info.RuntimeLibraryPaths ∧
      (LocateSwiftCompiler.libraryFlags w libs info2 flags s).1.2.LibrariesRequireRPath =
        info.LibrariesRequireRPath := by
  induction libs with
  | nil => intro info2 flags s h1 h2; simp [LocateSwiftCompiler.libraryFlags, h1, h2]
  | cons lib rest ih =>
    intro info2 flags s h1 h2
    have hr := FindLibrary_eq_resolvedArchive w info info2 lib s h1
    have hk := FindLibrary_result w info2 lib s
    simp only [LocateSwiftCompiler.libraryFlags, hr]
    split_ifs with hne
    · obtain ⟨a, b, c⟩ := ih (info2.FindLibrary w lib s).1.2 (flags ++ ["-force_load", resolvedArchive w info lib])
        (info2.FindLibrary w lib s).2 (hk.2.1.trans h1) (hk.2.2.2.trans h2)
      refine ⟨?_, b, c⟩
      rw [a]; simp [List.flatMap_cons, hne]
    · obtain ⟨a, b, c⟩ := ih (info2.FindLibrary w lib s).1.2 (flags ++ ["-l" ++ lib])
        (info2.FindLibrary w lib s).2 (hk.2.1.trans h1) (hk.2.2.2.trans h2)
      refine ⟨?_, b, c⟩
      have hne2 : resolvedArchive w info lib = "" := not_not.mp hne
      rw [a]; simp [List.flatMap_cons, hne2]

/-- Appending one flag per element with a left fold is appending the mapped list. -/
theorem foldl_append_flags (f : String → List String) (paths : List String) :
    ∀ flags : List String,
      paths.foldl (fun acc path => acc ++ f path) flags = flags ++ paths.flatMap f := by
  induction paths with
  | nil => intro flags; simp
  | cons p ps ih => intro flags; simp [List.foldl_cons, ih, List.flatMap_cons]

/-- The second and third loop of the flag derivation append the search-path flags and then,
if required, the run-path flags. -/
theorem pathFlags_result (info : targetInfo) (flags : List String) :
    LocateSwiftCompiler.pathFlags info flags =
      flags ++ info.RuntimeLibraryPaths.map (fun path => "-L" ++ path)
        ++ (if info.LibrariesRequireRPath = true then
              info.RuntimeLibraryPaths.flatMap (fun path => ["-rpath", path])
            else []) := by
  have h1 := foldl_append_flags (fun path => ["-L" ++ path]) info.RuntimeLibraryPaths
  have h2 := foldl_append_flags (fun path => ["-rpath", path]) info.RuntimeLibraryPaths
  have h3 : info.RuntimeLibraryPaths.flatMap (fun path => ["-L" ++ path]) =
      info.RuntimeLibraryPaths.map (fun path => "-L" ++ path) := by
    induction info.RuntimeLibraryPaths with
    | nil => simp
    | cons p ps ih => simp [List.flatMap_cons, ih]
  simp only [LocateSwiftCompiler.pathFlags, h1, h2, h3]
  split_ifs <;> simp

/-- The cascade of `LocateSwiftCompiler` leaves the environment and the linker flags alone. -/
theorem LocateSwiftCompiler_cascade_keeps (w : World) (tool : SwiftCompiler) (s : Sys) :
    (LocateSwiftCompiler.cascade w tool s).2.env = s.env ∧
    (LocateSwiftCompiler.cascade w tool s).1.1.LinkerFlags = tool.LinkerFlags := by
  simp only [LocateSwiftCompiler.cascade]
  split_ifs <;> (try split) <;> simp [(lookup_env w tool.toTool "swiftc" s).2]

/-- A successful last part of `LocateSwiftCompiler` extends the linker flags it was given
by the flags derived from the document, in order. -/
theorem LocateSwiftCompiler_derive_flags (w : World) (tool : SwiftCompiler) (info : targetInfo)
    (s : Sys) (hok : (LocateSwiftCompiler.derive w tool info s).1.2 = none) :
    (LocateSwiftCompiler.derive w tool info s).1.1.LinkerFlags =
      tool.LinkerFlags
        ++ info.CompatibilityLibraries.flatMap (fun lib =>
          if resolvedArchive w info lib ≠ "" then ["-force_load", resolvedArchive w info lib]
          else ["-l" ++ lib])
        ++ info.RuntimeLibraryPaths.map (fun path => "-L" ++ path)
        ++ (if info.LibrariesRequireRPath = true then
              info.RuntimeLibraryPaths.flatMap (fun path => ["-rpath", path])
            else []) := by
  obtain ⟨a, b, c⟩ := libraryFlags_result w info info.CompatibilityLibraries info tool.LinkerFlags s
    rfl rfl
  by_cases hv : (parseSwiftVersion tool.toTool.Desc info.CompilerVersion).2 = none
  · simp only [LocateSwiftCompiler.derive, hv, ne_eq, not_true_eq_false, if_false,
      pathFlags_result, a, b, c]
  · exfalso
    simp [LocateSwiftCompiler.derive, hv] at hok

/-- A successful query part of `LocateSwiftCompiler` decoded a document from the output of
the `-print-target-info` run of the tool and handed it to the last part. -/
theorem LocateSwiftCompiler_query_ok (w : World) (tool : SwiftCompiler) (s : Sys)
    (hok : (LocateSwiftCompiler.query w tool s).1.2 = none) :
    ∃ info, w.jsonTargetInfo
        (w.run s.env (tool.toTool.Command CaptureOutput ["-print-target-info"])).stdout = some info ∧
      (LocateSwiftCompiler.query w tool s).1 =
        (LocateSwiftCompiler.derive w tool info
          (s.record (.start (tool.toTool.Command CaptureOutput ["-print-target-info"]) s.env))).1 := by
  revert hok
  simp only [LocateSwiftCompiler.query, Tool.Output, Cmd.Output]
  split_ifs with h1 h2
  · intro hok; exact absurd hok h1
  · intro hok; simp at hok
  · split
    · intro hok; simp at hok
    · rename_i info hinfo
      intro _
      exact ⟨info, hinfo, rfl⟩

/-- C7: when `LocateSwiftCompiler` succeeds, its `LinkerFlags` are derived from the document
`info` that the compiler printed for `-print-target-info`, and they are exactly, in this
order: the two baseline flags; for each compatibility library in declaration order
`-force_load` and the archive when `FindLibrary` resolves one, else `-l` with the name; `-L`
with each runtime library path; and, iff run paths are required, `-rpath` and the path for
each runtime library path. -/
theorem linker_flags_in_order (w : World) (flags : List String) (s : Sys)
    (hok : (LocateSwiftCompiler w flags s).1.2 = none) :
    ∃ info, w.jsonTargetInfo (w.run s.env ((LocateSwiftCompiler w flags s).1.1.toTool.Command
        CaptureOutput ["-print-target-info"])).stdout = some info ∧
      (LocateSwiftCompiler w flags s).1.1.LinkerFlags =
        ["-lobjc", "-Wl,-no_objc_category_merging"]
          ++ info.CompatibilityLibraries.flatMap (fun lib =>
            if resolvedArchive w info lib ≠ "" then ["-force_load", resolvedArchive w info lib]
            else ["-l" ++ lib])
          ++ info.RuntimeLibraryPaths.map (fun path => "-L" ++ path)
          ++ (if info.LibrariesRequireRPath = true then
                info.RuntimeLibraryPaths.flatMap (fun path => ["-rpath", path])
              else []) ∧
      (LocateSwiftCompiler w flags s).1.1.LinkerFlags =
        expectedLinkerFlags (resolvedArchive w info) info := by
  revert hok
  simp only [LocateSwiftCompiler]
  split
  · intro hok; simp at hok
  · rename_i hu
    split_ifs with hc hl
    · intro hok; exact absurd hok hc
    · intro hok; exact absurd hok hl
    · intro hok
      have hc2 : (LocateSwiftCompiler.cascade w LocateSwiftCompiler.initial s).1.2 = none :=
        not_not.mp hc
      obtain ⟨info, hinfo, hq⟩ := LocateSwiftCompiler_query_ok w _ _ hok
      obtain ⟨_, _, _, hlf, henv⟩ := LocateSwiftCompiler_locate_args w
        (w.quotedSplit (osGetenv s SwiftcFlagsKey)).1 flags
        (LocateSwiftCompiler.cascade w LocateSwiftCompiler.initial s).1.1
        (LocateSwiftCompiler.cascade w LocateSwiftCompiler.initial s).2
      obtain ⟨cenv, clf⟩ := LocateSwiftCompiler_cascade_keeps w LocateSwiftCompiler.initial s
      rw [henv, cenv] at hinfo
      have hok2 := hok
      rw [hq] at hok2
      have hflags := LocateSwiftCompiler_derive_flags w _ info _ hok2
      rw [hlf, clf] at hflags
      refine ⟨info, ?_, ?_, ?_⟩
      · rw [LocateSwiftCompiler_query_toTool]; exact hinfo
      · rw [hq, hflags]; rfl
      · rw [hq, hflags]; rfl

/-- C7 at a concrete input, the fixture of the specification: in the example world the
compiler reports two compatibility libraries, of which `FindLibrary` resolves the first and
not the second, two runtime library paths, and that run paths are required; the derived
flags are the two baseline flags, the force-load flag, the name flag, two path flags and
two run-path flags, in this order. -/
theorem linker_flags_in_order_witness :
    (LocateSwiftCompiler exampleWorld [] ⟨[], []⟩).1.2 = none ∧
    resolvedArchive exampleWorld exampleTargetInfo "swiftCompatibility56" ≠ "" ∧
    resolvedArchive exampleWorld exampleTargetInfo "swiftCompatibilityPacks" = "" ∧
    (LocateSwiftCompiler exampleWorld [] ⟨[], []⟩).1.1.LinkerFlags =
      ["-lobjc", "-Wl,-no_objc_category_merging",
       "-force_load", "/usr/lib/swift/swiftCompatibility56.a",
       "-lswiftCompatibilityPacks",
       "-L/usr/lib/swift", "-L/opt/swift/lib",
       "-rpath", "/usr/lib/swift", "-rpath", "/opt/swift/lib"] := by
  refine ⟨by decide, by decide, by decide, ?_⟩
  obtain ⟨info, hinfo, _, hflags⟩ := linker_flags_in_order exampleWorld [] ⟨[], []⟩ (by decide)
  have hdoc : exampleWorld.jsonTargetInfo (exampleWorld.run []
      ((LocateSwiftCompiler exampleWorld [] ⟨[], []⟩).1.1.toTool.Command CaptureOutput
        ["-print-target-info"])).stdout = some exampleTargetInfo := by decide
  have hi : info = exampleTargetInfo := Option.some.inj (hinfo.symm.trans hdoc)
  rw [hflags, hi]
  decide

/-- C8 at a failing input: in the example world the only archive is the file
`swiftCompatibility56.a` of the working directory, and no archive exists under either
runtime library path (nor is there an SDK path); `FindLibrary` nevertheless returns the
path `/usr/lib/swift/swiftCompatibility56.a`, at which no file exists, because the only path
it checked is `swiftCompatibility56.a`. Conversely, in a world whose only archive is
`/usr/lib/swift/swiftCompatibilityPacks.a`, `FindLibrary` does not find it. -/
theorem FindLibrary_checks_the_bare_name :
    (exampleTargetInfo.FindLibrary exampleWorld "swiftCompatibility56" ⟨[], []⟩).1.1
      = "/usr/lib/swift/swiftCompatibility56.a" ∧
    exampleWorld.stat "/usr/lib/swift/swiftCompatibility56.a" = false ∧
    exampleWorld.stat "/opt/swift/lib/swiftCompatibility56.a" = false ∧
    (exampleTargetInfo.FindLibrary exampleWorld "swiftCompatibility56" ⟨[], []⟩).2.log
      = [.start (execCommand "xcrun" ["--show-sdk-path"]) [], .stat "swiftCompatibility56.a"] ∧
    (exampleTargetInfo.FindLibrary
      { exampleWorld with stat := fun path => path = "/usr/lib/swift/swiftCompatibilityPacks.a" }
      "swiftCompatibilityPacks" ⟨[], []⟩).1.1 = "" := by
  decide

/-- The cascade and the lookup of `LocateCCompiler` leave the environment alone and do not
set the clang flag. -/
theorem LocateCCompiler_resolve_keeps (w : World) (tool : CCompiler) (s : Sys) :
    (LocateCCompiler.cascade w s).2.env = s.env ∧
    (LocateCCompiler.cascade w s).1.1.IsClang = false ∧
    (LocateCCompiler.locate w tool s).2.env = s.env ∧
    (LocateCCompiler.locate w tool s).1.1.IsClang = tool.IsClang := by
  refine ⟨?_, ?_, ?_, ?_⟩
  · simp only [LocateCCompiler.cascade]
    split_ifs <;> (try split) <;> simp [(lookup_env w tool.toTool "clang" s).2]
  · simp only [LocateCCompiler.cascade]
    split_ifs <;> (try split) <;> simp
  · simp only [LocateCCompiler.locate]
    split_ifs <;> simp [(lookup_env w _ "" s).1]
  · simp only [LocateCCompiler.locate]
    split_ifs <;> simp

/-- The outcome of the probe of `LocateCCompiler` on a tool whose clang flag is not set, by
the error `e` of the run of the probe command. -/
theorem probe_outcome (w : World) (tool : CCompiler) (s : Sys) (hf : tool.IsClang = false) :
    ((LocateCCompiler.probe w tool s).1.1.IsClang = true ↔
      terminatedWith (w.run s.env (LocateCCompiler.probeCommand tool)).err 0) ∧
    (∀ c, terminatedWith (w.run s.env (LocateCCompiler.probeCommand tool)).err c →
      (LocateCCompiler.probe w tool s).1.2 = none) ∧
    ((∀ c, ¬ terminatedWith (w.run s.env (LocateCCompiler.probeCommand tool)).err c) →
      (LocateCCompiler.probe w tool s).1.2 ≠ none ∧
      (LocateCCompiler.probe w tool s).1.1.IsClang = false) := by
  have hcases := processInvocationError_cases tool.toTool
    (w.run s.env (LocateCCompiler.probeCommand tool)).err
  refine ⟨⟨?_, ?_⟩, ?_, ?_⟩
  · intro h
    simp only [LocateCCompiler.probe, Cmd.Run] at h
    split_ifs at h with h1 h2
    · simp [hf] at h
    · unfold terminatedWith
      unfold Tool.processInvocationError at h1 h2
      cases hb : (w.run s.env (LocateCCompiler.probeCommand tool)).err.bind GoError.asExecExit with
      | some c =>
        left
        simp only [hb] at h2
        rw [h2]
      | none =>
        right
        simp only [hb] at h1
        by_cases hn : (w.run s.env (LocateCCompiler.probeCommand tool)).err = none
        · exact ⟨hn, rfl⟩
        · simp [hn] at h1
    · simp [hf] at h
  · intro h
    have hp := hcases.1 0 h
    simp [LocateCCompiler.probe, Cmd.Run, hp]
  · intro c h
    have hp := hcases.1 c h
    simp only [LocateCCompiler.probe, Cmd.Run, hp]
    split_ifs <;> simp
  · intro h
    have hne : (tool.toTool.processInvocationError
        (w.run s.env (LocateCCompiler.probeCommand tool)).err).2 ≠ none := by
      intro hnone
      unfold Tool.processInvocationError at hnone
      cases hb : (w.run s.env (LocateCCompiler.probeCommand tool)).err.bind GoError.asExecExit with
      | some c => exact h c (Or.inl hb)
      | none =>
        simp only [hb] at hnone
        by_cases hn : (w.run s.env (LocateCCompiler.probeCommand tool)).err = none
        · exact h 0 (Or.inr ⟨hn, rfl⟩)
        · simp [hn] at hnone
    simp only [LocateCCompiler.probe, Cmd.Run]
    rw [if_pos hne]
    exact ⟨hne, hf⟩

/-- C9 as stated fails: in the example world, with the C compiler overridden to a file that
is found on the search path but cannot be executed, the binary path is resolved, the probe
fails to start (an error that is not an exit status), and `LocateCCompiler` returns a
non-nil error instead of succeeding with `IsClang = false`. -/
theorem probe_start_failure_fails_the_locate :
    (LocateCCompiler.locate exampleWorld
      (LocateCCompiler.cascade exampleWorld ⟨[("__SWIFTGO_PRIVATE_CC", "/opt/broken/cc")], []⟩).1.1
      (LocateCCompiler.cascade exampleWorld ⟨[("__SWIFTGO_PRIVATE_CC", "/opt/broken/cc")], []⟩).2).1
      = (⟨⟨"C compiler \"/opt/broken/cc\"", "/opt/broken/cc", "/opt/broken/cc", []⟩, false⟩, none) ∧
    (exampleWorld.run [("__SWIFTGO_PRIVATE_CC", "/opt/broken/cc")]
      (LocateCCompiler.probeCommand
        ⟨⟨"C compiler \"/opt/broken/cc\"", "/opt/broken/cc", "/opt/broken/cc", []⟩, false⟩)).err
      = some (.plain "fork/exec /opt/broken/cc: exec format error") ∧
    (LocateCCompiler exampleWorld ⟨[("__SWIFTGO_PRIVATE_CC", "/opt/broken/cc")], []⟩).1.2
      = some (.plain "C compiler \"/opt/broken/cc\" invocation failed: %!w(<nil>)") ∧
    (LocateCCompiler exampleWorld ⟨[("__SWIFTGO_PRIVATE_CC", "/opt/broken/cc")], []⟩).1.1.IsClang
      = false := by
  decide

/-- C9, amended: once the binary path is resolved (the cascade and the lookup succeed),
with `e` the error of the run of the probe command of the returned tool: `IsClang` is true
iff the probe exited with status 0; when the probe exited with any status, zero or not,
`LocateCCompiler` returns a nil error; and when the probe did not exit with a status (it
could not be started or waited for), `LocateCCompiler` returns a non-nil error, with
`IsClang` false. -/
theorem clang_probe_outcome (w : World) (s : Sys)
    (hc : (LocateCCompiler.cascade w s).1.2 = none)
    (hl : (LocateCCompiler.locate w (LocateCCompiler.cascade w s).1.1
      (LocateCCompiler.cascade w s).2).1.2 = none) :
    ((LocateCCompiler w s).1.1.IsClang = true ↔
      terminatedWith (w.run s.env (LocateCCompiler.probeCommand (LocateCCompiler w s).1.1)).err 0) ∧
    (∀ c, terminatedWith (w.run s.env (LocateCCompiler.probeCommand (LocateCCompiler w s).1.1)).err c →
      (LocateCCompiler w s).1.2 = none ∧
      ((LocateCCompiler w s).1.1.IsClang = false ↔ c ≠ 0)) ∧
    ((∀ c, ¬ terminatedWith (w.run s.env
        (LocateCCompiler.probeCommand (LocateCCompiler w s).1.1)).err c) →
      (LocateCCompiler w s).1.2 ≠ none ∧ (LocateCCompiler w s).1.1.IsClang = false) := by
  obtain ⟨cenv, cf, _, _⟩ := LocateCCompiler_resolve_keeps w (LocateCCompiler.cascade w s).1.1 s
  obtain ⟨_, _, lenv, lf⟩ := LocateCCompiler_resolve_keeps w (LocateCCompiler.cascade w s).1.1
    (LocateCCompiler.cascade w s).2
  have hfalse : (LocateCCompiler.locate w (LocateCCompiler.cascade w s).1.1
      (LocateCCompiler.cascade w s).2).1.1.IsClang = false := by rw [lf, cf]
  have hrun : LocateCCompiler w s = LocateCCompiler.probe w
      (LocateCCompiler.locate w (LocateCCompiler.cascade w s).1.1 (LocateCCompiler.cascade w s).2).1.1
      (LocateCCompiler.locate w (LocateCCompiler.cascade w s).1.1 (LocateCCompiler.cascade w s).2).2 := by
    simp [LocateCCompiler, hc, hl]
  have hcmd : LocateCCompiler.probeCommand (LocateCCompiler w s).1.1 = LocateCCompiler.probeCommand
      (LocateCCompiler.locate w (LocateCCompiler.cascade w s).1.1 (LocateCCompiler.cascade w s).2).1.1 := by
    rw [hrun]
    simp only [LocateCCompiler.probeCommand, (LocateCCompiler_rest_keeps w _ _).2.2]
  obtain ⟨p1, p2, p3⟩ := probe_outcome w _ (LocateCCompiler.locate w (LocateCCompiler.cascade w s).1.1
    (LocateCCompiler.cascade w s).2).2 hfalse
  rw [lenv, cenv, ← hcmd, ← hrun] at p1 p2 p3
  refine ⟨p1, fun c h => ⟨p2 c h, ?_⟩, p3⟩
  constructor
  · intro hF hc0
    subst hc0
    rw [p1.2 h] at hF
    exact Bool.noConfusion hF
  · intro hne
    cases hI : (LocateCCompiler w s).1.1.IsClang with
    | false => rfl
    | true =>
      exfalso
      have h0 := p1.1 hI
      apply hne
      rcases h with h | ⟨h, hc0⟩
      · rcases h0 with h0 | ⟨h0, _⟩
        · rw [h] at h0; exact Option.some.inj h0
        · rw [h0] at h; simp at h
      · exact hc0

/-- C9, amended, at a concrete input: in the example world, with the C compiler overridden
to `gcc -m64`, the probe exits with status 1 and `LocateCCompiler` succeeds with `IsClang`
false. -/
theorem clang_probe_outcome_witness :
    (LocateCCompiler.cascade exampleWorld ⟨[("__SWIFTGO_PRIVATE_CC", "gcc -m64")], []⟩).1.2 = none ∧
    terminatedWith (exampleWorld.run [("__SWIFTGO_PRIVATE_CC", "gcc -m64")]
      (LocateCCompiler.probeCommand
        (LocateCCompiler exampleWorld ⟨[("__SWIFTGO_PRIVATE_CC", "gcc -m64")], []⟩).1.1)).err 1 ∧
    (LocateCCompiler exampleWorld ⟨[("__SWIFTGO_PRIVATE_CC", "gcc -m64")], []⟩).1.2 = none ∧
    ((LocateCCompiler exampleWorld ⟨[("__SWIFTGO_PRIVATE_CC", "gcc -m64")], []⟩).1.1.IsClang = false
      ↔ (1 : Int) ≠ 0) :=
  ⟨by decide, Or.inl (by decide),
   ((clang_probe_outcome exampleWorld ⟨[("__SWIFTGO_PRIVATE_CC", "gcc -m64")], []⟩
      (by decide) (by decide)).2.1 1 (Or.inl (by decide))).1,
   ((clang_probe_outcome exampleWorld ⟨[("__SWIFTGO_PRIVATE_CC", "gcc -m64")], []⟩
      (by decide) (by decide)).2.1 1 (Or.inl (by decide))).2⟩

/-- After a successful cascade of `LocateSwiftCompiler` on the initial tool the fixed
arguments are those of the override. -/
theorem LocateSwiftCompiler_cascade_args (w : World) (s : Sys)
    (hc : (LocateSwiftCompiler.cascade w LocateSwiftCompiler.initial s).1.2 = none) :
    (LocateSwiftCompiler.cascade w LocateSwiftCompiler.initial s).1.1.toTool.Args =
      swiftOverrideArgs w s := by
  revert hc
  simp only [LocateSwiftCompiler.cascade, swiftOverrideArgs]
  by_cases hne : osGetenv s SwiftcOverrideKey = ""
  · simp only [hne, ne_eq, not_true_eq_false, if_false, if_true]
    split_ifs <;> intro _ <;> rfl
  · simp only [hne, ne_eq, not_false_eq_true, if_true, if_false]
    rcases hsp : w.quotedSplit (osGetenv s SwiftcOverrideKey) with ⟨args, err⟩
    cases err <;> cases args <;> simp

/-- C10: after a successful `LocateSwiftCompiler(F)` the fixed arguments of the tool are the
override's arguments `P`, then the split user flags `U` of `SWIFTGO_SWIFTFLAGS`, then `F`, so
that every command built on it has the arguments `P`, `U`, `F` and then the call's own; and
when `SWIFTGO_SWIFTFLAGS` is malformed the locate fails, with the error that names the
variable, before anything is done. -/
theorem swift_fixed_arguments (w : World) (flags : List String) (s : Sys) :
    ((LocateSwiftCompiler w flags s).1.2 = none →
      (LocateSwiftCompiler w flags s).1.1.toTool.Args =
        swiftOverrideArgs w s ++ (w.quotedSplit (osGetenv s SwiftcFlagsKey)).1 ++ flags ∧
      ∀ mode extra, ((LocateSwiftCompiler w flags s).1.1.toTool.Command mode extra).Args =
        (LocateSwiftCompiler w flags s).1.1.toTool.Path ::
          (swiftOverrideArgs w s ++ (w.quotedSplit (osGetenv s SwiftcFlagsKey)).1 ++ flags ++ extra)) ∧
    (∀ e, (w.quotedSplit (osGetenv s SwiftcFlagsKey)).2 = some e →
      (LocateSwiftCompiler w flags s).1.2 = some (fmtErrorfW
        (SwiftcFlagsKey ++ " environment variable could not be parsed: ") (some e)) ∧
      (LocateSwiftCompiler w flags s).2 = s) := by
  constructor
  · intro hok
    have hargs : (LocateSwiftCompiler w flags s).1.1.toTool.Args =
        swiftOverrideArgs w s ++ (w.quotedSplit (osGetenv s SwiftcFlagsKey)).1 ++ flags := by
      cases hu : (w.quotedSplit (osGetenv s SwiftcFlagsKey)).2 with
      | some e => simp [LocateSwiftCompiler, hu] at hok
      | none =>
        by_cases hc : (LocateSwiftCompiler.cascade w LocateSwiftCompiler.initial s).1.2 = none
        · rw [LocateSwiftCompiler_toTool w flags s hu hc]
          by_cases hl : (LocateSwiftCompiler.locate w (w.quotedSplit (osGetenv s SwiftcFlagsKey)).1
              flags (LocateSwiftCompiler.cascade w LocateSwiftCompiler.initial s).1.1
              (LocateSwiftCompiler.cascade w LocateSwiftCompiler.initial s).2).1.2 = none
          · rw [(LocateSwiftCompiler_locate_args w _ flags _ _).2.2.1 hl,
              LocateSwiftCompiler_cascade_args w s hc]
          · simp [LocateSwiftCompiler, hu, hc, hl] at hok
        · simp [LocateSwiftCompiler, hu, hc] at hok
    refine ⟨hargs, fun mode extra => ?_⟩
    rw [(Command_shape _ mode extra).2, hargs]
  · intro e he
    simp [LocateSwiftCompiler, he]

/-- C10 at a concrete input: in the example world, with `SWIFTGO_SWIFTC` set to
`swiftc -sdk /sdk`, `SWIFTGO_SWIFTFLAGS` set to `-g -O` and the caller's flags
`-target arm64`, the locate succeeds and the fixed arguments are
`-sdk /sdk -g -O -target arm64`. -/
theorem swift_fixed_arguments_witness :
    (LocateSwiftCompiler exampleWorld ["-target", "arm64"]
      ⟨[("SWIFTGO_SWIFTFLAGS", "-g -O"), ("SWIFTGO_SWIFTC", "swiftc -sdk /sdk")], []⟩).1.2 = none ∧
    (LocateSwiftCompiler exampleWorld ["-target", "arm64"]
      ⟨[("SWIFTGO_SWIFTFLAGS", "-g -O"), ("SWIFTGO_SWIFTC", "swiftc -sdk /sdk")], []⟩).1.1.toTool.Args
      = ["-sdk", "/sdk", "-g", "-O", "-target", "arm64"] :=
  ⟨by decide,
   ((swift_fixed_arguments exampleWorld ["-target", "arm64"]
      ⟨[("SWIFTGO_SWIFTFLAGS", "-g -O"), ("SWIFTGO_SWIFTC", "swiftc -sdk /sdk")], []⟩).1
      (by decide)).1.trans (by decide)⟩

/-- Nothing done is a growth. -/
theorem grows_refl (P : Event → Prop) (s : Sys) : Sys.Grows P s s :=
  ⟨rfl, [], by simp, by simp⟩

/-- Growths compose. -/
theorem grows_trans (P : Event → Prop) (s1 s2 s3 : Sys) (h12 : Sys.Grows P s1 s2)
    (h23 : Sys.Grows P s2 s3) : Sys.Grows P s1 s3 := by
  obtain ⟨e1, x1, l1, p1⟩ := h12
  obtain ⟨e2, x2, l2, p2⟩ := h23
  refine ⟨e2.trans e1, x1 ++ x2, by rw [l2, l1, List.append_assoc], ?_⟩
  intro e he
  rcases List.mem_append.mp he with h | h
  · exact p1 e h
  · exact p2 e h

/-- Recording one effect that satisfies `P` is a growth. -/
theorem grows_record (P : Event → Prop) (s : Sys) (e : Event) (h : P e) :
    Sys.Grows P s (s.record e) :=
  ⟨rfl, [e], rfl, by simpa using h⟩

/-- A growth by effects that satisfy `P` is a growth by effects that satisfy `Q`, when `P`
implies `Q`. -/
theorem grows_mono (P Q : Event → Prop) (s1 s2 : Sys) (hPQ : ∀ e, P e → Q e)
    (h : Sys.Grows P s1 s2) : Sys.Grows Q s1 s2 := by
  obtain ⟨e1, x1, l1, p1⟩ := h
  exact ⟨e1, x1, l1, fun e he => hPQ e (p1 e he)⟩

/-- An effect of looking something up is an effect of locating any tool. -/
theorem lookupEvent_locate (t : Tool) (e : Event) (h : lookupEvent e) : locateEvent t e := by
  cases e <;> trivial

/-- Reading the Go environment file starts no process. -/
theorem queryEnvFile_grows (w : World) (key : String) (s : Sys) :
    Sys.Grows lookupEvent s (queryEnvFile w key s).2 := by
  simp only [queryEnvFile]
  split
  · exact grows_refl _ _
  · split_ifs
    · exact grows_refl _ _
    · exact grows_refl _ _
    · split
      · exact grows_record _ _ _ trivial
      · split
        · exact grows_record _ _ _ trivial
        · exact grows_record _ _ _ trivial

/-- The lookup of a binary starts no process. -/
theorem Locate_grows (w : World) (tool : Tool) (s : Sys) :
    Sys.Grows lookupEvent s (tool.Locate w s).2 := by
  simp only [Tool.Locate, execLookPath]
  split_ifs
  · split
    · exact grows_record _ _ _ trivial
    · exact grows_record _ _ _ trivial
  · exact grows_refl _ _

/-- The `version` and `env -json` queries of a tool are effects of locating that tool. -/
theorem Output_query_grows (w : World) (tool : Tool) (s : Sys) :
    Sys.Grows (locateEvent tool) s (tool.Output w ["version"] s).2 ∧
    Sys.Grows (locateEvent tool) s (tool.Output w ["env", "-json"] s).2 :=
  ⟨grows_record _ _ _ (Or.inl rfl), grows_record _ _ _ (Or.inr rfl)⟩

/-- The second half of `LocateGoTool` performs effects of locating the tool it returns: the
only processes it starts are the two queries of that tool. -/
theorem LocateGoTool_query_grows (w : World) (tool : GoTool) (s : Sys) :
    Sys.Grows (locateEvent (LocateGoTool.query w tool s).1.1.toTool) s
      (LocateGoTool.query w tool s).2 := by
  have key : ∀ T : Tool,
      Sys.Grows (locateEvent (T.Locate w s).1.1) s (T.Locate w s).2 ∧
      Sys.Grows (locateEvent (T.Locate w s).1.1) s
        ((T.Locate w s).1.1.Output w ["version"] (T.Locate w s).2).2 ∧
      Sys.Grows (locateEvent (T.Locate w s).1.1) s ((T.Locate w s).1.1.Output w ["env", "-json"]
        ((T.Locate w s).1.1.Output w ["version"] (T.Locate w s).2).2).2 := by
    intro T
    have h1 := grows_mono _ _ _ _ (lookupEvent_locate (T.Locate w s).1.1) (Locate_grows w T s)
    have h2 := grows_trans _ _ _ _ h1 (Output_query_grows w (T.Locate w s).1.1 (T.Locate w s).2).1
    exact ⟨h1, h2, grows_trans _ _ _ _ h2 (Output_query_grows w _ _).2⟩
  simp only [LocateGoTool.query]
  split_ifs <;> (try split) <;>
    first
      | exact (key _).1
      | exact (key _).2.1
      | exact (key _).2.2

/-- The cascade of `LocateGoTool` starts no process. -/
theorem LocateGoTool_cascade_grows (w : World) (s : Sys) :
    Sys.Grows lookupEvent s (LocateGoTool.cascade w s).2 := by
  simp only [LocateGoTool.cascade]
  split_ifs <;> (try split) <;>
    first
      | exact grows_refl _ _
      | exact queryEnvFile_grows w "GOROOT" s

/-- `LocateGoTool` performs effects of locating the tool it returns and leaves the
environment alone: the only processes it starts are the two queries of that tool. -/
theorem LocateGoTool_grows (w : World) (s : Sys) :
    Sys.Grows (locateEvent (LocateGoTool w s).1.1.toTool) s (LocateGoTool w s).2 := by
  simp only [LocateGoTool]
  split_ifs
  · exact grows_mono _ _ _ _ (lookupEvent_locate _) (LocateGoTool_cascade_grows w s)
  · exact grows_trans _ _ _ _
      (grows_mono _ _ _ _ (lookupEvent_locate _) (LocateGoTool_cascade_grows w s))
      (LocateGoTool_query_grows w _ _)

/-- Reading a revision starts no process. -/
theorem GetRevision_grows (w : World) (path : String) (s : Sys) :
    Sys.Grows lookupEvent s (GetRevision w path s).2 := by
  simp only [GetRevision]
  split_ifs <;> split <;>
    first
      | exact grows_refl _ _
      | exact grows_record _ _ _ trivial

/-- `LocateSwiftGoCC` starts no process and leaves the environment alone. -/
theorem LocateSwiftGoCC_grows (w : World) (s : Sys) :
    Sys.Grows lookupEvent s (LocateSwiftGoCC w s).2 := by
  have hq : Sys.Grows lookupEvent s (queryExecutableDir w "swiftgocc" s).2 := by
    simp only [queryExecutableDir, execLookPath]
    split_ifs <;>
      first
        | exact grows_refl _ _
        | exact grows_record _ _ _ trivial
  have hc : Sys.Grows lookupEvent s (LocateSwiftGoCC.cascade w s).2 := by
    simp only [LocateSwiftGoCC.cascade]
    split_ifs <;>
      first
        | exact hq
        | exact grows_trans _ _ _ _ hq (queryEnvFile_grows w "GOPATH" _)
  simp only [LocateSwiftGoCC]
  split_ifs <;>
    first
      | exact grows_trans _ _ _ _ hc (Locate_grows w _ _)
      | exact grows_trans _ _ _ _ (grows_trans _ _ _ _ hc (Locate_grows w _ _))
          (GetRevision_grows w _ _)

/-- A run of the driver that reaches the revision check returns 2 after a message when the
revisions mismatch and goes on to the build part otherwise. -/
theorem mainExitCode_at_check (w : World) (osArgs : List String) (s : Sys)
    (h : reachesCheck w osArgs s) :
    mainExitCode w osArgs s =
      if revisionMismatch (driverCC w s).1.1.Revision (driverRevision w s).1 then
        (2, (driverRevision w s).2.record (.print
          ("swiftgo: revision mismatch between driver binary and "
            ++ (driverCC w s).1.1.toTool.Desc ++ "; reinstalling swiftgo might solve the issue\n")))
      else mainExitCode.build w (effectiveArgs w osArgs)
        (mainExitCode.shortHelp (effectiveArgs w osArgs)) (driverGo w s).1.1 (driverRevision w s).2 := by
  obtain ⟨hu, hg, hc⟩ := h
  simp only [driverCC, driverGo] at hg hc
  simp only [mainExitCode, hu, if_false, mainExitCode.locate, hg, Option.bind, hc, driverRevision,
    driverCC, driverGo]

/-- C11: for every pair of revisions, of the driver `d` and of the delegate `g`, the
revision check passes iff both are non-empty and `d = g`; a run of the driver that reaches
the check goes on to create the build directory when the check passes and returns exit
code 2 in every other case. -/
theorem revision_check_passes_iff (d g : String) (w : World) (osArgs : List String) (s : Sys)
    (h : reachesCheck w osArgs s) :
    (¬ revisionMismatch g d ↔ (d ≠ "" ∧ g ≠ "" ∧ d = g)) ∧
    (¬ revisionMismatch (driverCC w s).1.1.Revision (driverRevision w s).1 →
      mainExitCode w osArgs s = mainExitCode.build w (effectiveArgs w osArgs)
        (mainExitCode.shortHelp (effectiveArgs w osArgs)) (driverGo w s).1.1
        (driverRevision w s).2) ∧
    (revisionMismatch (driverCC w s).1.1.Revision (driverRevision w s).1 →
      (mainExitCode w osArgs s).1 = 2) := by
  refine ⟨?_, ?_, ?_⟩
  · unfold revisionMismatch
    constructor
    · intro hn
      refine ⟨fun hd => hn (Or.inr (Or.inl hd)), fun hg => hn (Or.inl hg), ?_⟩
      by_contra hne
      exact hn (Or.inr (Or.inr (fun e => hne e.symm)))
    · rintro ⟨hd, hg, he⟩ (h1 | h2 | h3)
      · exact hg h1
      · exact hd h2
      · exact h3 he.symm
  · intro hp
    rw [mainExitCode_at_check w osArgs s h, if_neg hp]
  · intro hm
    rw [mainExitCode_at_check w osArgs s h, if_pos hm]

/-- C11 at a concrete input: in the example world driver and delegate have the revision
`git-4f9c2d7`, the run `swiftgo build ./...` reaches the check and passes it. -/
theorem revision_check_passes_iff_witness :
    reachesCheck exampleWorld ["swiftgo", "build", "./..."] ⟨[], []⟩ ∧
    (driverCC exampleWorld ⟨[], []⟩).1.1.Revision = "git-4f9c2d7" ∧
    (¬ revisionMismatch "git-4f9c2d7" "git-4f9c2d7" ↔
      ("git-4f9c2d7" ≠ "" ∧ "git-4f9c2d7" ≠ "" ∧ "git-4f9c2d7" = "git-4f9c2d7")) :=
  ⟨by decide, by decide,
   (revision_check_passes_iff "git-4f9c2d7" "git-4f9c2d7" exampleWorld
      ["swiftgo", "build", "./..."] ⟨[], []⟩ (by decide)).1⟩

/-- C12 as stated fails: in the example world with a delegate built from another commit,
the run `swiftgo build ./...` reaches the revision check, the revisions differ, the driver
returns 2, and by then it has started a subprocess: the `version` query of the Go tool,
made while locating it (and the `env -json` query after it). -/
theorem mismatch_after_probe_processes :
    reachesCheck staleDelegateWorld ["swiftgo", "build", "./..."] ⟨[], []⟩ ∧
    revisionMismatch (driverCC staleDelegateWorld ⟨[], []⟩).1.1.Revision
      (driverRevision staleDelegateWorld ⟨[], []⟩).1 ∧
    (mainExitCode staleDelegateWorld ["swiftgo", "build", "./..."] ⟨[], []⟩).1 = 2 ∧
    Event.start (Tool.Command ⟨"Go tool \"go\"", "go", "/usr/local/go/bin/go", []⟩
        CaptureOutput ["version"]) [] ∈
      (mainExitCode staleDelegateWorld ["swiftgo", "build", "./..."] ⟨[], []⟩).2.log ∧
    Event.start (Tool.Command ⟨"Go tool \"go\"", "go", "/usr/local/go/bin/go", []⟩
        CaptureOutput ["env", "-json"]) [] ∈
      (mainExitCode staleDelegateWorld ["swiftgo", "build", "./..."] ⟨[], []⟩).2.log := by
  decide

/-- C12, amended: in every run of the driver that reaches the revision check with revisions
that are empty or differ, the driver returns with the environment as it found it, and what
it has done by then sets no environment variable, creates no directory, and starts no
subprocess other than the `version` and `env -json` queries of the Go tool that
`LocateGoTool` returned, by which that tool was located; the delegated build is not among
them, since its output is forwarded and theirs is captured. -/
theorem mismatch_returns_before_bridge (w : World) (osArgs : List String) (s : Sys)
    (h : reachesCheck w osArgs s)
    (hm : revisionMismatch (driverCC w s).1.1.Revision (driverRevision w s).1) :
    (mainExitCode w osArgs s).2.env = s.env ∧
    ∃ extra, (mainExitCode w osArgs s).2.log = s.log ++ extra ∧
      (∀ key value, Event.setenv key value ∉ extra) ∧
      (∀ pattern, Event.mkdirTemp pattern ∉ extra) ∧
      (∀ cmd env, Event.start cmd env ∈ extra →
        (cmd = (driverGo w s).1.1.toTool.Command CaptureOutput ["version"] ∨
          cmd = (driverGo w s).1.1.toTool.Command CaptureOutput ["env", "-json"]) ∧
        cmd.Stdout = false ∧ cmd ≠ driverCommand w osArgs s) := by
  have hg : Sys.Grows (locateEvent (driverGo w s).1.1.toTool) s (mainExitCode w osArgs s).2 := by
    rw [mainExitCode_at_check w osArgs s h, if_pos hm]
    have h1 : Sys.Grows (locateEvent (driverGo w s).1.1.toTool) s (driverGo w s).2 :=
      LocateGoTool_grows w s
    have h2 : Sys.Grows (locateEvent (driverGo w s).1.1.toTool) (driverGo w s).2
        (driverCC w s).2 :=
      grows_mono _ _ _ _ (lookupEvent_locate _) (LocateSwiftGoCC_grows w (driverGo w s).2)
    have h3 : Sys.Grows (locateEvent (driverGo w s).1.1.toTool) (driverCC w s).2
        (driverRevision w s).2 :=
      grows_mono _ _ _ _ (lookupEvent_locate _) (GetRevision_grows w "" (driverCC w s).2)
    exact grows_trans _ _ _ _ (grows_trans _ _ _ _ (grows_trans _ _ _ _ h1 h2) h3)
      (grows_record _ _ _ trivial)
  have hout : ∀ (t : Tool) (args : List String),
      (t.Command CaptureOutput args).Stdout = false := by
    intro t args
    cases hb : (t.Command CaptureOutput args).Stdout with
    | false => rfl
    | true => exact absurd ((Command_Stdout t CaptureOutput args).mp hb) (by decide)
  have hfwd : ∀ (t : Tool) (args : List String), (t.Command Forward args).Stdout = true :=
    fun t args => (Command_Stdout t Forward args).mpr (by decide)
  obtain ⟨henv, extra, hlog, hall⟩ := hg
  refine ⟨henv, extra, hlog, ?_, ?_, ?_⟩
  · intro key value hin
    exact hall _ hin
  · intro pattern hin
    exact hall _ hin
  · intro cmd env hin
    have hq : cmd = (driverGo w s).1.1.toTool.Command CaptureOutput ["version"] ∨
        cmd = (driverGo w s).1.1.toTool.Command CaptureOutput ["env", "-json"] := hall _ hin
    have hs : cmd.Stdout = false := by
      rcases hq with ht | ht <;> rw [ht] <;> exact hout _ _
    refine ⟨hq, hs, ?_⟩
    intro hc
    rw [hc, driverCommand, hfwd] at hs
    exact Bool.noConfusion hs

/-- C12, amended, at a concrete input: the run of the example world with the delegate built
from another commit leaves the environment as it was. -/
theorem mismatch_returns_before_bridge_witness :
    reachesCheck staleDelegateWorld ["swiftgo", "build", "./..."] ⟨[("GOFLAGS", "-v")], []⟩ ∧
    revisionMismatch (driverCC staleDelegateWorld ⟨[("GOFLAGS", "-v")], []⟩).1.1.Revision
      (driverRevision staleDelegateWorld ⟨[("GOFLAGS", "-v")], []⟩).1 ∧
    (mainExitCode staleDelegateWorld ["swiftgo", "build", "./..."] ⟨[("GOFLAGS", "-v")], []⟩).2.env
      = [("GOFLAGS", "-v")] :=
  ⟨by decide, by decide,
   (mismatch_returns_before_bridge staleDelegateWorld ["swiftgo", "build", "./..."]
      ⟨[("GOFLAGS", "-v")], []⟩ (by decide) (by decide)).1⟩

/-- A run of the driver that reaches the delegation starts the forwarding command under the
environment left by the export of the bridge variables, and returns 2 when that invocation
yields an error and its exit code otherwise. -/
theorem mainExitCode_at_delegation (w : World) (osArgs : List String) (s : Sys)
    (h : reachesDelegation w osArgs s) :
    (mainExitCode w osArgs s).1 =
      (match ((driverGo w s).1.1.toTool.processInvocationError
          (w.run (driverBridge w s).2.env (driverCommand w osArgs s)).err).2 with
        | some _ => 2
        | none => ((driverGo w s).1.1.toTool.processInvocationError
          (w.run (driverBridge w s).2.env (driverCommand w osArgs s)).err).1) ∧
    Event.start (driverCommand w osArgs s) (driverBridge w s).2.env ∈
      (mainExitCode w osArgs s).2.log := by
  obtain ⟨hc, hm, hd, hb⟩ := h
  rw [mainExitCode_at_check w osArgs s hc, if_neg hm]
  simp only [driverBuildDir] at hd
  simp only [driverBridge, driverBuildDir] at hb
  simp only [mainExitCode.build, hd, mainExitCode.forward, hb, Tool.Run, Cmd.Run, driverBridge,
    driverBuildDir, driverCommand]
  constructor
  · split
    · simp_all
    · split_ifs <;> simp_all
  · split
    · simp [Sys.record]
    · split_ifs <;> simp [Sys.record]

/-- C13 as stated fails: for the run `swiftgo help swift` none of the failures occurs (the
Go tool and the delegate would be located, the revisions agree, the build directory and the
bridge variables would be set up) and the Go tool would answer the forwarded invocation
with exit status 2, but the driver forwards nothing: it prints its own usage text and
returns 0. -/
theorem help_swift_is_not_forwarded :
    (driverGo unknownTopicWorld ⟨[], []⟩).1.2 = none ∧
    (driverCC unknownTopicWorld ⟨[], []⟩).1.2 = none ∧
    ¬ revisionMismatch (driverCC unknownTopicWorld ⟨[], []⟩).1.1.Revision
      (driverRevision unknownTopicWorld ⟨[], []⟩).1 ∧
    (driverBuildDir unknownTopicWorld ⟨[], []⟩).1.2 = none ∧
    (driverBridge unknownTopicWorld ⟨[], []⟩).1 = none ∧
    terminatedWith (unknownTopicWorld.run (driverBridge unknownTopicWorld ⟨[], []⟩).2.env
      (driverCommand unknownTopicWorld ["swiftgo", "help", "swift"] ⟨[], []⟩)).err 2 ∧
    mainExitCode unknownTopicWorld ["swiftgo", "help", "swift"] ⟨[], []⟩
      = (0, ⟨[], [.print usageOutput]⟩) := by
  refine ⟨by decide, by decide, by decide, by decide, by decide, Or.inl (by decide), by decide⟩

/-- C13, amended: a run of the driver for the help topic `swift` returns 0. Every other run
returns: the exit code carried by the `ExitError` when locating the Go tool fails with an
error that wraps one; 2 when locating the Go tool fails otherwise, when locating the
delegate fails, when the revisions mismatch, when the build directory cannot be created,
when a bridge variable cannot be set, and when the forwarded invocation fails without an
exit status; and otherwise exactly the exit code of the forwarded invocation. -/
theorem driver_exit_code (w : World) (osArgs : List String) (s : Sys) :
    (mainExitCode.usageTopic (effectiveArgs w osArgs) → (mainExitCode w osArgs s).1 = 0) ∧
    (¬ mainExitCode.usageTopic (effectiveArgs w osArgs) →
      (∀ c, (driverGo w s).1.2.bind GoError.asToolExit = some c → (mainExitCode w osArgs s).1 = c) ∧
      ((driverGo w s).1.2 ≠ none → (driverGo w s).1.2.bind GoError.asToolExit = none →
        (mainExitCode w osArgs s).1 = 2) ∧
      ((driverGo w s).1.2 = none → (driverCC w s).1.2 ≠ none → (mainExitCode w osArgs s).1 = 2)) ∧
    (reachesCheck w osArgs s →
      (revisionMismatch (driverCC w s).1.1.Revision (driverRevision w s).1 →
        (mainExitCode w osArgs s).1 = 2) ∧
      (¬ revisionMismatch (driverCC w s).1.1.Revision (driverRevision w s).1 →
        (driverBuildDir w s).1.2 ≠ none → (mainExitCode w osArgs s).1 = 2) ∧
      (¬ revisionMismatch (driverCC w s).1.1.Revision (driverRevision w s).1 →
        (driverBuildDir w s).1.2 = none → (driverBridge w s).1 ≠ none →
        (mainExitCode w osArgs s).1 = 2)) ∧
    (reachesDelegation w osArgs s →
      (∀ c, terminatedWith (w.run (driverBridge w s).2.env (driverCommand w osArgs s)).err c →
        (mainExitCode w osArgs s).1 = c) ∧
      ((∀ c, ¬ terminatedWith (w.run (driverBridge w s).2.env (driverCommand w osArgs s)).err c) →
        (mainExitCode w osArgs s).1 = 2)) := by
  refine ⟨?_, ?_, ?_, ?_⟩
  · intro hu
    simp [mainExitCode, hu]
  · intro hu
    refine ⟨?_, ?_, ?_⟩
    · intro c hc
      simp only [driverGo] at hc
      simp [mainExitCode, hu, mainExitCode.locate, hc]
    · intro hne hnone
      simp only [driverGo] at hne hnone
      simp only [mainExitCode, hu, if_false, mainExitCode.locate, hnone]
      cases hg : (LocateGoTool w s).1.2 with
      | none => exact absurd hg hne
      | some e => rfl
    · intro hg hc
      simp only [driverCC, driverGo] at hg hc
      simp only [mainExitCode, hu, if_false, mainExitCode.locate, hg, Option.bind]
      cases hcc : (LocateSwiftGoCC w (LocateGoTool w s).2).1.2 with
      | none => exact absurd hcc hc
      | some e => rfl
  · intro hc
    refine ⟨?_, ?_, ?_⟩
    · intro hm
      rw [mainExitCode_at_check w osArgs s hc, if_pos hm]
    · intro hm hd
      rw [mainExitCode_at_check w osArgs s hc, if_neg hm]
      simp only [driverBuildDir] at hd
      simp only [mainExitCode.build]
      cases hmk : (osMkdirTemp w "" "swiftgo-build" (driverRevision w s).2).1.2 with
      | none => exact absurd hmk hd
      | some e => rfl
    · intro hm hd hb
      rw [mainExitCode_at_check w osArgs s hc, if_neg hm]
      simp only [driverBuildDir] at hd
      simp only [driverBridge, driverBuildDir] at hb
      simp only [mainExitCode.build, hd, mainExitCode.forward]
      cases hex : (mainExitCode.exportBridge w (driverGo w s).1.1
          (osMkdirTemp w "" "swiftgo-build" (driverRevision w s).2).1.1
          (osMkdirTemp w "" "swiftgo-build" (driverRevision w s).2).2).1 with
      | none => exact absurd hex hb
      | some e => rfl
  · intro hd
    have hr := (mainExitCode_at_delegation w osArgs s hd).1
    have hcases := processInvocationError_cases (driverGo w s).1.1.toTool
      (w.run (driverBridge w s).2.env (driverCommand w osArgs s)).err
    constructor
    · intro c hc
      rw [hr, hcases.1 c hc]
    · intro hno
      rw [hr]
      cases hp : ((driverGo w s).1.1.toTool.processInvocationError
          (w.run (driverBridge w s).2.env (driverCommand w osArgs s)).err).2 with
      | some e => rfl
      | none =>
        exfalso
        unfold Tool.processInvocationError at hp
        cases hb : (w.run (driverBridge w s).2.env (driverCommand w osArgs s)).err.bind
            GoError.asExecExit with
        | some c => exact hno c (Or.inl hb)
        | none =>
          simp only [hb] at hp
          by_cases hn : (w.run (driverBridge w s).2.env (driverCommand w osArgs s)).err = none
          · exact hno 0 (Or.inr ⟨hn, rfl⟩)
          · simp [hn] at hp

/-- C13, amended, at a concrete input: in the example world the run `swiftgo build ./...`
reaches the delegation, the forwarded `build` exits with status 1, and the driver returns
1. -/
theorem driver_exit_code_witness :
    reachesDelegation exampleWorld ["swiftgo", "build", "./..."] ⟨[], []⟩ ∧
    terminatedWith (exampleWorld.run (driverBridge exampleWorld ⟨[], []⟩).2.env
      (driverCommand exampleWorld ["swiftgo", "build", "./..."] ⟨[], []⟩)).err 1 ∧
    (mainExitCode exampleWorld ["swiftgo", "build", "./..."] ⟨[], []⟩).1 = 1 :=
  ⟨by decide, Or.inl (by decide),
   ((driver_exit_code exampleWorld ["swiftgo", "build", "./..."] ⟨[], []⟩).2.2.2 (by decide)).1 1
     (Or.inl (by decide))⟩

/-- C14: in every environment in which the build-directory variable or the private
C-compiler override is absent, the delegate ends with the non-zero exit code 1, having done
nothing but print its message: it has looked up no binary and started no process. The
outcome is the same for every world and argument vector: it depends on the environment
only. -/
theorem delegate_requires_bridge (w : World) (osArgs : List String) (s : Sys)
    (h : osLookupEnv s SwiftGoCCBuildDirKey = none ∨ osLookupEnv s CCOverrideKey = none) :
    (swiftgocc.main w osArgs s).1 = 1 ∧ (swiftgocc.main w osArgs s).1 ≠ 0 ∧
    (swiftgocc.main w osArgs s).2.env = s.env ∧
    (∃ extra, (swiftgocc.main w osArgs s).2.log = s.log ++ extra ∧
      extra = [Event.print swiftgocc.notConfigured] ∧
      (∀ file, Event.lookPath file ∉ extra) ∧ (∀ cmd env, Event.start cmd env ∉ extra)) ∧
    (∀ (w2 : World) (osArgs2 : List String) (s2 : Sys), s2.env = s.env →
      (swiftgocc.main w2 osArgs2 s2).1 = (swiftgocc.main w osArgs s).1 ∧
      (swiftgocc.main w2 osArgs2 s2).2.env = (swiftgocc.main w osArgs s).2.env ∧
      (swiftgocc.main w2 osArgs2 s2).2.log = s2.log ++ [Event.print swiftgocc.notConfigured]) := by
  have key : ∀ (w2 : World) (osArgs2 : List String) (s2 : Sys), s2.env = s.env →
      swiftgocc.main w2 osArgs2 s2 = (1, s2.record (.print swiftgocc.notConfigured)) := by
    intro w2 osArgs2 s2 he
    have hcond : osGetenv s2 SwiftGoCCBuildDirKey = "" ∨ osLookupEnv s2 CCOverrideKey = none := by
      simp only [osGetenv, osLookupEnv, he] at h ⊢
      rcases h with h | h
      · left; rw [h]; rfl
      · right; exact h
    simp only [swiftgocc.main]
    rw [if_pos hcond]
  have hk := key w osArgs s rfl
  refine ⟨by rw [hk], by rw [hk]; exact one_ne_zero, by rw [hk]; rfl, ?_, ?_⟩
  · refine ⟨[Event.print swiftgocc.notConfigured], by rw [hk]; rfl, rfl, ?_, ?_⟩
    · intro file hin
      simp at hin
    · intro cmd env hin
      simp at hin
  · intro w2 osArgs2 s2 he
    rw [key w2 osArgs2 s2 he, hk]
    exact ⟨rfl, he, rfl⟩

/-- C14 at a concrete input: with the build directory exported but the private C-compiler
override absent, the delegate of the example world ends with exit code 1 after its
message. -/
theorem delegate_requires_bridge_witness :
    osLookupEnv ⟨[("__SWIFTGO_PRIVATE_BUILDDIR", "/tmp/swiftgo-build1")], []⟩ CCOverrideKey = none ∧
    (swiftgocc.main exampleWorld ["swiftgocc", "-c", "x.c"]
      ⟨[("__SWIFTGO_PRIVATE_BUILDDIR", "/tmp/swiftgo-build1")], []⟩).1 = 1 :=
  ⟨by decide,
   (delegate_requires_bridge exampleWorld ["swiftgocc", "-c", "x.c"]
      ⟨[("__SWIFTGO_PRIVATE_BUILDDIR", "/tmp/swiftgo-build1")], []⟩ (Or.inr (by decide))).1⟩

/-- Looking a key up after the bindings of another key were removed. -/
theorem lookup_filter_ne (env : Env) (k k2 : String) :
    (env.filter (fun b => b.1 ≠ k)).lookup k2 = if k2 = k then none else env.lookup k2 := by
  induction env with
  | nil => simp
  | cons b bs ih =>
    obtain ⟨bk, bv⟩ := b
    simp only [ne_eq, decide_not] at ih ⊢
    by_cases hb : bk = k
    · subst hb
      by_cases h2 : k2 = bk
      · subst h2; simpa [List.filter_cons] using ih
      · have : (k2 == bk) = false := by simpa using h2
        simp [List.filter_cons, List.lookup_cons, this, ih, h2]
    · by_cases h2 : k2 = bk
      · subst h2
        simp [List.filter_cons, List.lookup_cons, hb]
      · have : (k2 == bk) = false := by simpa using h2
        simp [List.filter_cons, List.lookup_cons, hb, this, ih]

/-- A successful `os.Setenv` binds its key and leaves every other variable alone. -/
theorem osSetenv_lookup (w : World) (k v : String) (s : Sys)
    (h : (osSetenv w k v s).1 = none) (k2 : String) :
    (osSetenv w k v s).2.env.lookup k2 = if k2 = k then some v else s.env.lookup k2 := by
  unfold osSetenv at h ⊢
  cases he : w.setenvError k v with
  | some e => simp [he] at h
  | none =>
    simp only [he]
    by_cases h2 : k2 = k
    · subst h2; simp [List.lookup_cons]
    · have hb : (k2 == k) = false := by simpa using h2
      have hf := lookup_filter_ne s.env k k2
      rw [if_neg h2] at hf
      rw [List.lookup_cons, hb, if_neg h2]
      exact hf

/-- After a successful export the three bridge variables are bound as the driver wrote
them and every other variable is as before. -/
theorem exportBridge_lookup (w : World) (goTool : GoTool) (buildDir : String) (s : Sys)
    (h : (mainExitCode.exportBridge w goTool buildDir s).1 = none) :
    (mainExitCode.exportBridge w goTool buildDir s).2.env.lookup SwiftGoCCBuildDirKey
      = some buildDir ∧
    (mainExitCode.exportBridge w goTool buildDir s).2.env.lookup CCOverrideKey
      = some ((goTool.Env.lookup "CC").getD "") ∧
    (mainExitCode.exportBridge w goTool buildDir s).2.env.lookup "CC" = some "swiftgocc" ∧
    ∀ key, key ≠ SwiftGoCCBuildDirKey → key ≠ CCOverrideKey → key ≠ "CC" →
      (mainExitCode.exportBridge w goTool buildDir s).2.env.lookup key = s.env.lookup key := by
  unfold mainExitCode.exportBridge at h ⊢
  simp only [] at h ⊢
  by_cases h1 : (osSetenv w SwiftGoCCBuildDirKey buildDir s).1 = none
  · simp only [h1, ne_eq, not_true_eq_false, if_false] at h ⊢
    by_cases h2 : (osSetenv w CCOverrideKey ((goTool.Env.lookup "CC").getD "")
        (osSetenv w SwiftGoCCBuildDirKey buildDir s).2).1 = none
    · simp only [h2, ne_eq, not_true_eq_false, if_false] at h ⊢
      have e1 := osSetenv_lookup w _ _ _ h1
      have e2 := osSetenv_lookup w _ _ _ h2
      have e3 := osSetenv_lookup w _ _ _ h
      have d1 : SwiftGoCCBuildDirKey ≠ "CC" := by decide
      have d2 : SwiftGoCCBuildDirKey ≠ CCOverrideKey := by decide
      have d3 : CCOverrideKey ≠ "CC" := by decide
      refine ⟨?_, ?_, ?_, ?_⟩
      · rw [e3, if_neg d1, e2, if_neg d2, e1, if_pos rfl]
      · rw [e3, if_neg d3, e2, if_pos rfl]
      · rw [e3, if_pos rfl]
      · intro key k1 k2 k3
        rw [e3, if_neg k3, e2, if_neg k2, e1, if_neg k1]
    · simp only [h2, ne_eq, not_false_eq_true, if_true] at h
  · simp only [h1, ne_eq, not_false_eq_true, if_true] at h

/-- Up to the creation of the build directory a run of the driver leaves the environment
as it found it. -/
theorem driverBuildDir_env (w : World) (s : Sys) : (driverBuildDir w s).2.env = s.env := by
  have h1 := (LocateGoTool_grows w s).1
  have h2 := (LocateSwiftGoCC_grows w (LocateGoTool w s).2).1
  have h3 := (GetRevision_grows w "" (LocateSwiftGoCC w (LocateGoTool w s).2).2).1
  simp only [driverBuildDir, osMkdirTemp, driverRevision, driverCC, driverGo, record_env]
  rw [h3, h2, h1]

/-- C15 as stated fails: in the example world the run `swiftgo build ./...` reaches the
delegation, `LocateSwiftGoCC` has found the delegate at `/usr/local/bin/swiftgocc`, and the
environment handed to the Go tool binds `CC` to the bare name `swiftgocc`, not to that
path. -/
theorem cc_is_the_bare_name :
    reachesDelegation exampleWorld ["swiftgo", "build", "./..."] ⟨[("CC", "gcc")], []⟩ ∧
    (driverCC exampleWorld ⟨[("CC", "gcc")], []⟩).1.1.toTool.Path = "/usr/local/bin/swiftgocc" ∧
    Event.start (driverCommand exampleWorld ["swiftgo", "build", "./..."] ⟨[("CC", "gcc")], []⟩)
        [("CC", "swiftgocc"), ("__SWIFTGO_PRIVATE_CC", "clang"),
         ("__SWIFTGO_PRIVATE_BUILDDIR", "/tmp/swiftgo-build2704561238")] ∈
      (mainExitCode exampleWorld ["swiftgo", "build", "./..."] ⟨[("CC", "gcc")], []⟩).2.log ∧
    (driverBridge exampleWorld ⟨[("CC", "gcc")], []⟩).2.env.lookup "CC" = some "swiftgocc" ∧
    (driverBridge exampleWorld ⟨[("CC", "gcc")], []⟩).2.env.lookup "CC"
      ≠ some (driverCC exampleWorld ⟨[("CC", "gcc")], []⟩).1.1.toTool.Path := by
  decide

/-- C15, amended: in every run of the driver that reaches the delegation, the forwarding
command is started under an environment in which the build-directory key is bound to the
path of the temporary directory just created, the private C-compiler key to the `CC` entry
of the Go tool's reported environment, and `CC` to the bare name `swiftgocc`; every other
variable is bound as it was when the run began. -/
theorem bridge_environment (w : World) (osArgs : List String) (s : Sys)
    (h : reachesDelegation w osArgs s) :
    Event.start (driverCommand w osArgs s) (driverBridge w s).2.env ∈
      (mainExitCode w osArgs s).2.log ∧
    (driverBridge w s).2.env.lookup SwiftGoCCBuildDirKey = some (driverBuildDir w s).1.1 ∧
    (driverBridge w s).2.env.lookup CCOverrideKey
      = some (((driverGo w s).1.1.Env.lookup "CC").getD "") ∧
    (driverBridge w s).2.env.lookup "CC" = some "swiftgocc" ∧
    (∀ key, key ≠ SwiftGoCCBuildDirKey → key ≠ CCOverrideKey → key ≠ "CC" →
      (driverBridge w s).2.env.lookup key = s.env.lookup key) := by
  have hstart := (mainExitCode_at_delegation w osArgs s h).2
  obtain ⟨_, _, _, hb⟩ := h
  obtain ⟨b1, b2, b3, b4⟩ := exportBridge_lookup w (driverGo w s).1.1 (driverBuildDir w s).1.1
    (driverBuildDir w s).2 hb
  refine ⟨hstart, b1, b2, b3, ?_⟩
  intro key k1 k2 k3
  have := b4 key k1 k2 k3
  rw [driverBuildDir_env] at this
  exact this

/-- C15, amended, at a concrete input: the run `swiftgo build ./...` of the example world,
begun with `CC=gcc` and `GOFLAGS=-v`, hands the Go tool `CC=swiftgocc` and `GOFLAGS=-v`. -/
theorem bridge_environment_witness :
    reachesDelegation exampleWorld ["swiftgo", "build", "./..."]
      ⟨[("CC", "gcc"), ("GOFLAGS", "-v")], []⟩ ∧
    (driverBridge exampleWorld ⟨[("CC", "gcc"), ("GOFLAGS", "-v")], []⟩).2.env.lookup "CC"
      = some "swiftgocc" ∧
    (driverBridge exampleWorld ⟨[("CC", "gcc"), ("GOFLAGS", "-v")], []⟩).2.env.lookup "GOFLAGS"
      = some "-v" :=
  ⟨by decide,
   (bridge_environment exampleWorld ["swiftgo", "build", "./..."]
      ⟨[("CC", "gcc"), ("GOFLAGS", "-v")], []⟩ (by decide)).2.2.2.1,
   ((bridge_environment exampleWorld ["swiftgo", "build", "./..."]
      ⟨[("CC", "gcc"), ("GOFLAGS", "-v")], []⟩ (by decide)).2.2.2.2 "GOFLAGS"
      (by decide) (by decide) (by decide)).trans (by decide)⟩

/-- The value of a setting after one more entry. -/
theorem settingValue_snoc (settings : List (String × String)) (b : String × String)
    (key : String) :
    settingValue (settings ++ [b]) key = if b.1 = key then b.2 else settingValue settings key := by
  unfold settingValue
  rw [List.reverse_append]
  by_cases h : b.1 = key
  · simp [List.find?_cons, h]
  · simp [List.find?_cons, h]

/-- The loop of `GetRevision` computes the values of the three settings. -/
theorem scan_eq (settings : List (String × String)) :
    GetRevision.scan settings =
      (settingValue settings "vcs", settingValue settings "vcs.revision",
        if ("vcs.modified", "true") ∈ settings then "-modified" else "") := by
  induction settings using List.reverseRecOn with
  | nil => simp [GetRevision.scan, settingValue]
  | append_singleton l b ih =>
    have hstep : GetRevision.scan (l ++ [b]) =
        (if b.1 = "vcs" then (b.2, (GetRevision.scan l).2.1, (GetRevision.scan l).2.2)
         else if b.1 = "vcs.revision" then ((GetRevision.scan l).1, b.2, (GetRevision.scan l).2.2)
         else if b.1 = "vcs.modified" then
           (if b.2 = "true" then ((GetRevision.scan l).1, (GetRevision.scan l).2.1, "-modified")
            else GetRevision.scan l)
         else GetRevision.scan l) := by
      simp [GetRevision.scan, List.foldl_append]
    rw [hstep, ih, settingValue_snoc, settingValue_snoc]
    obtain ⟨bk, bv⟩ := b
    have d1 : ("vcs" : String) ≠ "vcs.revision" := by decide
    have d2 : ("vcs" : String) ≠ "vcs.modified" := by decide
    have d3 : ("vcs.revision" : String) ≠ "vcs.modified" := by decide
    by_cases h1 : bk = "vcs"
    · subst h1
      simp [d1, d2]
    · by_cases h2 : bk = "vcs.revision"
      · subst h2
        simp [d1, d3, Ne.symm d1]
      · by_cases h3 : bk = "vcs.modified"
        · subst h3
          by_cases h4 : bv = "true"
          · subst h4; simp [h1, h2]
          · have h5 : ¬ "true" = bv := fun e => h4 e.symm
            simp [h1, h2, h4, h5]
        · have h6 : ¬ "vcs.modified" = bk := fun e => h3 e.symm
          simp [h1, h2, h3, h6]

/-- What `GetRevision` returns, by whether the build information can be read. -/
theorem GetRevision_eq (w : World) (path : String) (s : Sys) :
    (GetRevision w path s).1 =
      match buildInfoAt w path with
      | none => ""
      | some info => revisionText info.Settings := by
  simp only [GetRevision, buildInfoAt, revisionText]
  split_ifs <;> split <;> simp_all [scan_eq]

/-- A revision text is never empty. -/
theorem revisionText_ne_empty (settings : List (String × String)) :
    revisionText settings ≠ "" := by
  intro h
  have hl := congrArg String.length h
  simp only [revisionText, String.length_append] at hl
  have hd : ("-" : String).length = 1 := by decide
  have he : ("" : String).length = 0 := by decide
  rw [hd, he] at hl
  omega

/-- A record without version-control settings has the revision text `-`. -/
theorem revisionText_noVcs (settings : List (String × String)) (h : noVcsSettings settings) :
    revisionText settings = "-" := by
  have hv : ∀ key, (key = "vcs" ∨ key = "vcs.revision") → settingValue settings key = "" := by
    intro key hk
    unfold settingValue
    have : settings.reverse.find? (fun b => decide (b.1 = key)) = none := by
      rw [List.find?_eq_none]
      intro b hb
      have hb2 := h b (List.mem_reverse.mp hb)
      rcases hk with hk | hk <;> subst hk
      · simpa using hb2.1
      · simpa using hb2.2.1
    rw [this]
    rfl
  have hm : ("vcs.modified", "true") ∉ settings := fun hin => (h _ hin).2.2 rfl
  unfold revisionText
  rw [hv "vcs" (Or.inl rfl), hv "vcs.revision" (Or.inr rfl), if_neg hm]
  decide

/-- The revision of a located delegate is read from the build information of the file at
its path. -/
theorem LocateSwiftGoCC_revision (w : World) (s : Sys) (h : (LocateSwiftGoCC w s).1.2 = none) :
    (LocateSwiftGoCC w s).1.1.Revision =
      match buildInfoAt w (LocateSwiftGoCC w s).1.1.toTool.Path with
      | none => ""
      | some info => revisionText info.Settings := by
  revert h
  simp only [LocateSwiftGoCC]
  split_ifs <;> intro h <;> first
    | exact absurd h ‹_›
    | exact GetRevision_eq w _ _

/-- C16: for every build-information record that can be read, `GetRevision` returns the
version-control kind, a dash, the commit and `-modified` iff the record has
`vcs.modified = true`, a text that is never empty; it returns the empty string exactly when
the build information cannot be read. A record without version-control settings gives `-`,
so a driver and a delegate both built without them have the equal revision `-`, and a run
that reaches the revision check with them passes it and goes on to the build part. -/
theorem revision_of_build_info (w : World) (path : String) (s : Sys) :
    (∀ info, buildInfoAt w path = some info →
      (GetRevision w path s).1 = revisionText info.Settings ∧ (GetRevision w path s).1 ≠ "") ∧
    ((GetRevision w path s).1 = "" ↔ buildInfoAt w path = none) ∧
    (∀ info, buildInfoAt w path = some info → noVcsSettings info.Settings →
      (GetRevision w path s).1 = "-") ∧
    (∀ (osArgs : List String) (i1 i2 : BuildInfo), reachesCheck w osArgs s →
      buildInfoAt w (driverCC w s).1.1.toTool.Path = some i1 → buildInfoAt w "" = some i2 →
      noVcsSettings i1.Settings → noVcsSettings i2.Settings →
      (driverCC w s).1.1.Revision = "-" ∧ (driverRevision w s).1 = "-" ∧
      ¬ revisionMismatch (driverCC w s).1.1.Revision (driverRevision w s).1 ∧
      mainExitCode w osArgs s = mainExitCode.build w (effectiveArgs w osArgs)
        (mainExitCode.shortHelp (effectiveArgs w osArgs)) (driverGo w s).1.1
        (driverRevision w s).2) := by
  have heq := GetRevision_eq w path s
  refine ⟨?_, ?_, ?_, ?_⟩
  · intro info hi
    rw [hi] at heq
    exact ⟨heq, by rw [heq]; exact revisionText_ne_empty _⟩
  · cases hi : buildInfoAt w path with
    | none => rw [hi] at heq; simp [heq]
    | some info =>
      rw [hi] at heq
      simp only [heq]
      constructor
      · intro h0; exact absurd h0 (revisionText_ne_empty _)
      · intro h0; exact Option.noConfusion h0
  · intro info hi hn
    rw [hi] at heq
    exact heq.trans (revisionText_noVcs _ hn)
  · intro osArgs i1 i2 hc h1 h2 n1 n2
    have hg : (driverCC w s).1.1.Revision = "-" := by
      have := LocateSwiftGoCC_revision w (driverGo w s).2 hc.2.2
      simp only [driverCC] at h1 ⊢
      rw [this, h1]
      exact revisionText_noVcs _ n1
    have hd : (driverRevision w s).1 = "-" := by
      have := GetRevision_eq w "" (driverCC w s).2
      simp only [driverRevision]
      rw [this, h2]
      exact revisionText_noVcs _ n2
    have hm : ¬ revisionMismatch (driverCC w s).1.1.Revision (driverRevision w s).1 := by
      rw [hg, hd]; decide
    refine ⟨hg, hd, hm, ?_⟩
    rw [mainExitCode_at_check w osArgs s hc, if_neg hm]

/-- C16 at a concrete input: in the example world built outside version control, the run
`swiftgo build ./...` reaches the revision check, both revisions are `-`, and it goes on:
the build directory is created. -/
theorem revision_of_build_info_witness :
    reachesCheck plainBuildWorld ["swiftgo", "build", "./..."] ⟨[], []⟩ ∧
    noVcsSettings [("-buildmode", "exe"), ("GOOS", "darwin")] ∧
    (driverCC plainBuildWorld ⟨[], []⟩).1.1.Revision = "-" ∧
    (driverRevision plainBuildWorld ⟨[], []⟩).1 = "-" ∧
    Event.mkdirTemp "swiftgo-build" ∈
      (mainExitCode plainBuildWorld ["swiftgo", "build", "./..."] ⟨[], []⟩).2.log := by
  have hn : noVcsSettings [("-buildmode", "exe"), ("GOOS", "darwin")] := by
    intro b hb
    simp only [List.mem_cons, List.mem_singleton, List.not_mem_nil, or_false] at hb
    rcases hb with rfl | rfl <;> decide
  have h := (revision_of_build_info plainBuildWorld "" ⟨[], []⟩).2.2.2
    ["swiftgo", "build", "./..."]
    { MainVersion := "(devel)", Settings := [("-buildmode", "exe"), ("GOOS", "darwin")] }
    { MainVersion := "(devel)", Settings := [("-buildmode", "exe"), ("GOOS", "darwin")] }
    (by decide) (by decide) (by decide) hn hn
  exact ⟨by decide, hn, h.1, h.2.1, by decide⟩

end SwiftGo
